import Mathlib

/-!
Verification of the content-refinery ingestion pipeline.

This file shallowly embeds the core logic of the repository:

* the elastic heartbeat scheduler of `ContentDO.alarm` / `ContentDO.resetHeartbeat`
  (src/src/ContentDO.ts, coordinator version),
* the batch analyzer's retry bookkeeping (`processBatch` / `analyzeSourceBatch`,
  src/src/ContentDO.ts, first version),
* the tiered mirroring policy (`Orchestrator.mirrorSignal` and its callers,
  src/unnamed/part_004),
* the deduplicating ingest pipeline (`Orchestrator.processIngest`,
  src/unnamed/part_004, together with `FactStore`),
* the counter-based `FactStore` variant (src/src/collectors/WebhookCollector.ts),
* the PII scrubber `scrubSensitiveContent` (src/src/ContentDO.ts),
* the raw `/sql` route of `ContentDO.fetch` (src/src/ContentDO.ts, first version).

Timestamps are integer epoch milliseconds (`Int`).  SQLite tables are lists of
row structures; `INSERT OR REPLACE` is remove-then-append on the primary key.
-/

namespace ContentRefinery

/-! ## Heartbeat scheduler (src/src/ContentDO.ts, coordinator version)

State: the durable key `current_heartbeat_interval` (absent on first run).
`alarm()` reads it with `await this.ctx.storage.get(...) || 5 * 60 * 1000`
(a falsy stored value, i.e. 0, also falls back to the base). -/

/-- Base heartbeat interval: 5 minutes in milliseconds. -/
def BASE_HEARTBEAT_MS : Nat := 5 * 60 * 1000

/-- Maximum heartbeat interval: 60 minutes in milliseconds. -/
def MAX_HEARTBEAT_MS : Nat := 60 * 60 * 1000

/-- JavaScript `await storage.get('current_heartbeat_interval') || 5 * 60 * 1000`:
`undefined` and `0` are falsy and fall back to the base. -/
def readInterval (stored : Option Nat) : Nat :=
  match stored with
  | none => BASE_HEARTBEAT_MS
  | some v => if v = 0 then BASE_HEARTBEAT_MS else v

/-- The interval computation of `ContentDO.alarm`: reset to base when the tick
was active, otherwise double the previous interval, capped at the maximum. -/
def nextHeartbeatInterval (active : Bool) (stored : Option Nat) : Nat :=
  let lastInterval := readInterval stored
  if active then BASE_HEARTBEAT_MS
  else min (lastInterval * 2) MAX_HEARTBEAT_MS

/-- One alarm tick: returns the interval that is both persisted to
`current_heartbeat_interval` and used to schedule the next alarm at
`now + interval`. -/
def alarmStep (active : Bool) (stored : Option Nat) : Option Nat :=
  some (nextHeartbeatInterval active stored)

/-- The stored-interval sequence over an uninterrupted idle period, starting
from a freshly primed state (the constructor primes the first alarm with the
base interval, and the store holds nothing yet). -/
def idleInterval : Nat → Nat
  | 0 => BASE_HEARTBEAT_MS
  | k + 1 => nextHeartbeatInterval false (some (idleInterval k))

/-- `ContentDO.resetHeartbeat`: called after an accepted ingest.  Only when the
stored interval exceeds the base does it write the base back and reschedule the
alarm at `now + 5 * 60 * 1000`.  Returns the new stored interval and the newly
requested alarm time (if any). -/
def resetHeartbeat (stored : Option Nat) (now : Int) : Option Nat × Option Int :=
  let interval := readInterval stored
  if interval > BASE_HEARTBEAT_MS then
    (some BASE_HEARTBEAT_MS, some (now + (BASE_HEARTBEAT_MS : Int)))
  else
    (stored, none)

/-- `handleIngestInternal` (coordinator version) triggers `resetHeartbeat`
exactly when `processIngest` returned a non-null result that is neither
`"no_content"` nor `"callback_processed"`. -/
def ingestTriggersReset (result : Option String) : Bool :=
  match result with
  | none => false
  | some r => r ≠ "no_content" && r ≠ "callback_processed"

/-- `handleIngest` of the first `ContentDO` version: after inserting the raw
item it always schedules the alarm at `now + 5000` milliseconds. -/
def handleIngestV1AlarmTime (now : Int) : Int := now + 5000

/-- The tail of `handleIngestInternal` (coordinator version): gate on the
ingest result, then `resetHeartbeat`. -/
def handleIngestReset (stored : Option Nat) (now : Int) (result : Option String) :
    Option Nat × Option Int :=
  if ingestTriggersReset result then resetHeartbeat stored now else (stored, none)

/-! ## Analyzer retry bookkeeping (src/src/ContentDO.ts, first version)

`processBatch` selects `WHERE processed_json IS NULL AND retry_count < 5`;
on an analysis exception every selected item gets
`retry_count = retry_count + 1, last_error = ?`.  Nothing in this path
touches `is_signal`. -/

/-- Retry cap used in the pending-batch query. -/
def MAX_RETRIES : Nat := 5

/-- The slice of a `content_items` row that the retry logic reads and writes. -/
structure RetryItem where
  processed_json : Option String
  retry_count : Nat
  is_signal : Int
  last_error : Option String
  deriving Repr, DecidableEq

/-- The pending-batch filter `processed_json IS NULL AND retry_count < 5`. -/
def isPending (it : RetryItem) : Bool :=
  it.processed_json.isNone && it.retry_count < MAX_RETRIES

/-- The write-back of the analyzer's catch branch:
`UPDATE content_items SET retry_count = retry_count + 1, last_error = ? WHERE id = ?`. -/
def bumpRetry (it : RetryItem) (err : String) : RetryItem :=
  { it with retry_count := it.retry_count + 1, last_error := some err }

/-- One failing analyzer pass as observed by a single item: the item is bumped
exactly when the pending-batch query selected it. -/
def failStep (err : String) (it : RetryItem) : RetryItem :=
  if isPending it then bumpRetry it err else it

/-- A freshly ingested item: `processed_json` NULL, `retry_count` 0 (column
default), `is_signal` 0 (column default). -/
def freshItem : RetryItem :=
  { processed_json := none, retry_count := 0, is_signal := 0, last_error := none }

/-- `Orchestrator.reprocess` (src/unnamed/part_004): when `source_id` cannot be
parsed it runs `UPDATE content_items SET is_signal = -1 WHERE id = ?`.  This is
the only write of `-1` into `is_signal` in the repository. -/
def markFailedUnparseable (it : RetryItem) : RetryItem :=
  { it with is_signal := -1 }

/-! ## Tiered mirroring (src/unnamed/part_004) -/

/-- The hard-coded fallback primary channel in `mirrorSignal`. -/
def DEFAULT_ALPHA : String := "-1003589267081"

/-- The configuration slice that the mirroring policy reads. -/
structure MirrorEnv where
  alphaChannelId : Option String
  betaChannelId : Option String
  deriving Repr, DecidableEq

/-- Target chat chosen by `Orchestrator.mirrorSignal`: primary (alpha) unless
the score is below 80 and a beta channel is configured. -/
def mirrorSignalTarget (env : MirrorEnv) (score : Int) : String :=
  let targetChatId := env.alphaChannelId.getD DEFAULT_ALPHA
  match env.betaChannelId with
  | some beta => if score < 80 then beta else targetChatId
  | none => targetChatId

/-- The guard used before `mirrorSignal` on the ingest-side paths (PDF
analysis, forced analysis, cached-analysis reuse):
`score >= 80 || (score >= 60 && this.env.BETA_CHANNEL_ID)`. -/
def ingestMirrorGate (env : MirrorEnv) (score : Int) : Bool :=
  decide (score ≥ 80) || (decide (score ≥ 60) && env.betaChannelId.isSome)

/-- The guard used in `generateFinancialDigest`:
`relevance_score >= 75 || (relevance_score >= 60 && this.env.BETA_CHANNEL_ID)`. -/
def digestMirrorGate (env : MirrorEnv) (score : Int) : Bool :=
  decide (score ≥ 75) || (decide (score ≥ 60) && env.betaChannelId.isSome)

/-- The resolved primary (alpha) channel id. -/
def alphaResolved (env : MirrorEnv) : String :=
  env.alphaChannelId.getD DEFAULT_ALPHA

/-! ## PII scrubber (src/src/ContentDO.ts, `scrubSensitiveContent`)

```js
const patterns = [
    { regex: /[0-9]{4}-[0-9]{4}-[0-9]{4}-[0-9]{4}/g, replacement: '[CREDIT_CARD]' },
    { regex: /[a-zA-Z0-9._%+-]+@[a-zA-Z0-9.-]+\.[a-zA-Z]{2,}/g, replacement: '[EMAIL]' }
];
let scrubbed = text;
for (const p of patterns) scrubbed = scrubbed.replace(p.regex, p.replacement);
```

Strings are modelled as `List Char`.  A JavaScript global `replace` scans the
string left to right; at each position it attempts a match (with the standard
greedy-plus-backtracking semantics), replaces it and resumes after the matched
chunk, otherwise moves one character right.  Both regexes use only ASCII
character classes, so matching is modelled with ASCII predicates. -/

/-- The character class `[a-zA-Z0-9._%+-]` (email local part). -/
def isLocalChar (c : Char) : Bool :=
  c.isAlphanum || c = '.' || c = '_' || c = '%' || c = '+' || c = '-'

/-- The character class `[a-zA-Z0-9.-]` (email domain). -/
def isDomainChar (c : Char) : Bool :=
  c.isAlphanum || c = '.' || c = '-'

/-- The literal `-` of the card regex. -/
def isDashChar (c : Char) : Bool := c = '-'

/-- The card regex `[0-9]{4}-[0-9]{4}-[0-9]{4}-[0-9]{4}` as a pointwise
pattern: 19 character predicates that a match must satisfy in order.  The
regex has no quantifier with slack, so a match at a position is exactly this
pattern on the next 19 characters. -/
def cardPat : List (Char → Bool) :=
  [Char.isDigit, Char.isDigit, Char.isDigit, Char.isDigit, isDashChar,
   Char.isDigit, Char.isDigit, Char.isDigit, Char.isDigit, isDashChar,
   Char.isDigit, Char.isDigit, Char.isDigit, Char.isDigit, isDashChar,
   Char.isDigit, Char.isDigit, Char.isDigit, Char.isDigit]

/-- Does the string start with characters satisfying the given predicates? -/
def matchesPat : List (Char → Bool) → List Char → Bool
  | [], _ => true
  | _ :: _, [] => false
  | p :: ps, c :: cs => p c && matchesPat ps cs

/-- Length of a card match at the head of `s`, if any (always 19). -/
def cardMatchLen (s : List Char) : Option Nat :=
  if matchesPat cardPat s then some 19 else none

/-- Backtracking search of the email regex tail `\.[a-zA-Z]{2,}` inside the
greedy domain run: starting from the longest domain prefix (length `j`) and
giving back one character at a time, find the first `j ≥ 1` such that the
character at index `j` of `rest2` is `.` and at least two ASCII letters
follow.  Returns the chosen `j` together with the greedy TLD run length. -/
def findDot (rest2 : List Char) : Nat → Option (Nat × Nat)
  | 0 => none
  | j + 1 =>
    if (rest2.drop (j + 1)).headD ' ' = '.' then
      let t := ((rest2.drop (j + 2)).takeWhile Char.isAlpha).length
      if 2 ≤ t then some (j + 1, t) else findDot rest2 j
    else findDot rest2 j

/-- Length of a match of `[a-zA-Z0-9._%+-]+@[a-zA-Z0-9.-]+\.[a-zA-Z]{2,}` at
the head of `s`, if any, following the JavaScript backtracking semantics.

The local part is a greedy run of local characters; since `@` is not a local
character, backtracking the `+` cannot help, so the match requires the run to
be non-empty and followed by `@`.  After the `@`, the greedy domain run of
length `d` is given back one character at a time until `\.[a-zA-Z]{2,}` fits
(`findDot`); the TLD run is greedy and final. -/
def emailMatchLen (s : List Char) : Option Nat :=
  let l := (s.takeWhile isLocalChar).length
  if l = 0 then none
  else if (s.drop l).headD ' ' = '@' then
    let rest2 := s.drop (l + 1)
    let d := (rest2.takeWhile isDomainChar).length
    match findDot rest2 d with
    | some (j, t) => some (l + 1 + j + 1 + t)
    | none => none
  else none

/-- The replacement token `[CREDIT_CARD]`. -/
def CARD_TOKEN : List Char :=
  ['[', 'C', 'R', 'E', 'D', 'I', 'T', '_', 'C', 'A', 'R', 'D', ']']

/-- The replacement token `[EMAIL]`. -/
def EMAIL_TOKEN : List Char := ['[', 'E', 'M', 'A', 'I', 'L', ']']

/-- Fuelled worker for a global regex replace: at each position, replace a
match and resume after it, otherwise keep the character and move right.  The
fuel only bounds the recursion; every match consumes at least one character,
so fuel `s.length` never runs out (`replaceAllAux_fuel_irrelevant`). -/
def replaceAllAux (m : List Char → Option Nat) (token : List Char) :
    Nat → List Char → List Char
  | _, [] => []
  | 0, s => s
  | fuel + 1, c :: rest =>
    match m (c :: rest) with
    | some n => token ++ replaceAllAux m token fuel ((c :: rest).drop n)
    | none => c :: replaceAllAux m token fuel rest

/-- JavaScript `s.replace(re, token)` with the `g` flag. -/
def replaceAll (m : List Char → Option Nat) (token : List Char)
    (s : List Char) : List Char :=
  replaceAllAux m token s.length s

/-- `scrubSensitiveContent` on character lists: the card pass, then the email
pass, exactly in source order. -/
def scrubChars (s : List Char) : List Char :=
  replaceAll emailMatchLen EMAIL_TOKEN (replaceAll cardMatchLen CARD_TOKEN s)

/-- `ContentDO.scrubSensitiveContent`.  The source returns its argument
unchanged when it is falsy (the empty string) and never returns null, so the
function is total on strings; on the empty string both branches coincide. -/
def scrubSensitiveContent (text : String) : String :=
  String.mk (scrubChars text.data)

/-- No suffix of `s` carries a match of the matcher `m` at its head — i.e.
a global replace with `m` is a no-op on `s`. -/
def noMatch (m : List Char → Option Nat) (s : List Char) : Prop :=
  ∀ p : Nat, m (s.drop p) = none

/-! ## The content store (coordinator version: `FactStore`, src/src/FactStore.ts
variant of src/src/collectors/WebhookCollector.ts second half, with
`last_analyzed_at`) and `Orchestrator.processIngest` (src/unnamed/part_004).

`content_items` is a list of rows; `INSERT OR REPLACE` removes any row with
the same primary key and appends the new one.  `processed_json` holds the
parsed analysis object (the source stores `JSON.stringify(sig)` and parses it
back on read; the round-trip is modelled away).  SHA-256 (`generateContentHash`)
is modelled as an injective fingerprint — the pipeline only ever compares
fingerprints for equality, and the spec treats the hash as collision-free
("unique by construction"), so the identity serves as the fingerprint. -/

/-- A parsed LLM analysis entry (the fields the pipeline reads). -/
structure Sig where
  summary : String
  relevance_score : Int
  source_ids : List String
  deriving Repr, DecidableEq

/-- A `content_items` row (coordinator schema, `migrateSchema`). -/
structure Row where
  id : String
  source_id : String
  source_name : String
  raw_text : String
  content_hash : Option String
  processed_json : Option Sig
  is_signal : Int
  last_analyzed_at : Option Int
  created_at : Int
  deriving Repr, DecidableEq

/-- The durable tables the modelled slice touches. -/
structure Store where
  content_items : List Row
  channels : List String
  deriving Repr, DecidableEq

/-- `generateContentHash` (SHA-256 hex, modelled as an injective fingerprint). -/
def generateContentHash (text : String) : String := text

/-- `INSERT OR REPLACE INTO content_items`: drop any row with the same
primary key, append the new row. -/
def insertOrReplace (st : Store) (row : Row) : Store :=
  { st with content_items :=
      st.content_items.filter (fun r => !(r.id == row.id)) ++ [row] }

/-- `FactStore.saveContentItem` (coordinator version) is an
`INSERT OR REPLACE`; the call sites in this model construct the full row with
the source's defaulting (`|| null`, `created_at || Date.now()`) applied. -/
def saveContentItem (st : Store) (row : Row) : Store := insertOrReplace st row

/-- The 24-hour analysis-reuse window. -/
def REUSE_WINDOW_MS : Int := 24 * 60 * 60 * 1000

/-- The row filter of `FactStore.getRecentAnalysisByHash`:
`content_hash = ? AND processed_json IS NOT NULL AND last_analyzed_at > ?`
(a NULL `last_analyzed_at` fails the comparison). -/
def rowHasRecentAnalysis (now : Int) (h : String) (r : Row) : Bool :=
  r.content_hash == some h && r.processed_json.isSome &&
    (match r.last_analyzed_at with
     | some t => decide (now - REUSE_WINDOW_MS < t)
     | none => false)

/-- `FactStore.getRecentAnalysisByHash`: first matching row (`LIMIT 1`),
parsed `processed_json`. -/
def getRecentAnalysisByHash (st : Store) (now : Int) (h : String) : Option Sig :=
  (st.content_items.find? (rowHasRecentAnalysis now h)).bind
    (fun r => r.processed_json)

/-- `FactStore.getItem`: lookup by primary key. -/
def getItem (st : Store) (id : String) : Option Row :=
  st.content_items.find? (fun r => r.id == id)

/-- `FactStore.getStats` (coordinator version): `COUNT(*)` over
`content_items`, signals (`is_signal = 1`) and `channels`. -/
def getStatsV3 (st : Store) : Nat × Nat × Nat :=
  (st.content_items.length,
   (st.content_items.filter (fun r => r.is_signal == 1)).length,
   st.channels.length)

/-- `FactStore.deleteChannel`. -/
def deleteChannel (st : Store) (id : String) : Store :=
  { st with channels := st.channels.filter (fun c => !(c == id)) }

/-- `UPDATE content_items SET is_signal = 1 WHERE id = ?` (the forced-analysis
mark of `processIngest`, and the per-source promotion of the analyzer). -/
def sqlSetSignal (st : Store) (id : String) : Store :=
  { st with content_items :=
      st.content_items.map (fun r => if r.id == id then { r with is_signal := 1 } else r) }

/-- `UPDATE content_items SET raw_text = ?, content_hash = ?, source_name = ?
WHERE id = ?` (the reprocess/update branch of `processIngest`). -/
def sqlUpdateItemText (st : Store) (id text h name : String) : Store :=
  { st with content_items :=
      st.content_items.map (fun r =>
        if r.id == id then
          { r with raw_text := text, content_hash := some h, source_name := name }
        else r) }

/-! ## `Orchestrator.processIngest` (src/unnamed/part_004, lines 144-321)

The modelled slice covers ingest bodies without media (the media branch
downloads through Telegram and is I/O).  The LLM (`synthesizeBatch`) is an
oracle parameter `llm`; each invocation is counted.  `crypto.randomUUID()` is
modelled by the `freshId` argument (for the item id) and a supply `sigIds`
(for signal-row ids). -/

/-- Prefix test, as JavaScript `text.startsWith(p)`. -/
def jsStartsWith (s p : String) : Bool := p.data.isPrefixOf s.data

/-- The JavaScript `\s` class (the regex `/high\s*signal\s*alpha/i` and the
command splitter use it): tab, LF, VT, FF, CR, space, NBSP, Ogham space,
U+2000-200A, LS, PS, NNBSP, MMSP, ideographic space, BOM. -/
def isJsSpace (c : Char) : Bool :=
  c = ' ' || c = '\t' || c = '\n' || c = '\r' ||
  c.toNat = 0xB || c.toNat = 0xC ||
  c.toNat = 0xA0 || c.toNat = 0x1680 ||
  (0x2000 ≤ c.toNat && c.toNat ≤ 0x200A) ||
  c.toNat = 0x2028 || c.toNat = 0x2029 || c.toNat = 0x202F ||
  c.toNat = 0x205F || c.toNat = 0x3000 || c.toNat = 0xFEFF

/-- Case-insensitive literal keyword match (ASCII folding); returns the rest
of the string after the keyword. -/
def matchKeyword : List Char → List Char → Option (List Char)
  | [], s => some s
  | _ :: _, [] => none
  | k :: ks, c :: cs => if c.toLower = k then matchKeyword ks cs else none

/-- Does `/high\s*signal\s*alpha/i` match at the head of `s`?  `\s*` is
greedy, and both following literals start with a non-space letter, so maximal
munch is exact. -/
def loopGuardAt (s : List Char) : Bool :=
  match matchKeyword ['h', 'i', 'g', 'h'] s with
  | none => false
  | some r1 =>
    match matchKeyword ['s', 'i', 'g', 'n', 'a', 'l'] (r1.dropWhile isJsSpace) with
    | none => false
    | some r2 =>
      (matchKeyword ['a', 'l', 'p', 'h', 'a'] (r2.dropWhile isJsSpace)).isSome

/-- Does a predicate hold on some suffix? (`RegExp.test` scans all start
positions.) -/
def anySuffix (p : List Char → Bool) : List Char → Bool
  | [] => p []
  | c :: cs => p (c :: cs) || anySuffix p cs

/-- The output-loop guard of `processIngest`:
`body.title && /high\s*signal\s*alpha/i.test(body.title)`. -/
def outputLoopGuard (title : String) : Bool := anySuffix loopGuardAt title.data

/-- `JSON.stringify({ chatId, messageId })` as built for `source_id`. -/
def mkSourceId (chatId messageId : String) : String :=
  "\x7b\"chatId\":\"" ++ chatId ++ "\",\"messageId\":\"" ++ messageId ++ "\"\x7d"

/-- JavaScript `body.title || 'Unknown'`. -/
def titleOr (t : String) : String := if t = "" then "Unknown" else t

/-- The ingest request shape (`IngestRequest` in src/src/types.ts), media-free. -/
structure IngestBody where
  chatId : String
  messageId : String
  title : String
  text : String
  deriving Repr, DecidableEq

/-- The `options` argument of `processIngest`. -/
structure IngestOptions where
  forceAnalysis : Bool
  id : Option String
  deriving Repr, DecidableEq

/-- The default `options = {}`. -/
def defaultOptions : IngestOptions := { forceAnalysis := false, id := none }

/-- One outbound `mirrorSignal` send: target chat, title, score. -/
structure MirrorSend where
  target : String
  title : String
  score : Int
  deriving Repr, DecidableEq

/-- The observable outcome of one `processIngest` call: the returned
string-or-null, the store afterwards, the mirror sends issued, and the number
of LLM invocations. -/
structure IngestResult where
  result : Option String
  store : Store
  sends : List MirrorSend
  llmCalls : Nat
  deriving Repr, DecidableEq

/-- The signal row saved by the forced-analysis branch
(`source_name: "Retrospective Analysis"`). -/
def retroSignalRow (signalId srcId : String) (sig : Sig) (now : Int) : Row :=
  { id := signalId, source_id := srcId, source_name := "Retrospective Analysis",
    raw_text := sig.summary, content_hash := none, processed_json := some sig,
    is_signal := 1, last_analyzed_at := some now, created_at := now }

/-- The signal row saved by the analysis-reuse branch
(`source_name: "Cached Analysis"`; note `content_hash` is NULL because the
call passes no `metadata`). -/
def cachedAnalysisRow (signalId srcId : String) (sig : Sig) (now : Int) : Row :=
  { id := signalId, source_id := srcId, source_name := "Cached Analysis",
    raw_text := sig.summary, content_hash := none, processed_json := some sig,
    is_signal := 1, last_analyzed_at := some now, created_at := now }

/-- The loop of the forced-analysis branch: save a signal row for every
analysis entry with score above 70 and mirror it when the gate passes.
`sigIds` supplies the fresh UUIDs. -/
def processForcedSigs (env : MirrorEnv) (now : Int) (srcId : String) :
    List Sig → List String → Store → List MirrorSend →
      Store × List MirrorSend × List String
  | [], ids, st, sends => (st, sends, ids)
  | sig :: restSigs, ids, st, sends =>
    if sig.relevance_score > 70 then
      let signalId := ids.headD "uuid-exhausted"
      let st1 := saveContentItem st (retroSignalRow signalId srcId sig now)
      let sends1 :=
        if ingestMirrorGate env sig.relevance_score then
          sends ++ [⟨mirrorSignalTarget env sig.relevance_score, "RETRO ALPHA",
                     sig.relevance_score⟩]
        else sends
      processForcedSigs env now srcId restSigs ids.tail st1 sends1
    else processForcedSigs env now srcId restSigs ids st sends

/-- `Orchestrator.handleSlashCommand`: `/status`, `/ignore <id>`, `/help`,
unknown.  Returns the reply and the store (only `/ignore` writes). -/
def handleSlashCommand (st : Store) (text : String) : String × Store :=
  let parts := (text.trim.split isJsSpace).filter (fun s => !s.isEmpty)
  let command := (parts.headD "").toLower
  let args := parts.tail
  if command = "/status" then
    let s := getStatsV3 st
    ("📊 Status: " ++ toString s.1 ++ " items, " ++ toString s.2.1 ++
     " signals, " ++ toString s.2.2 ++ " channels\n📡 Bot API: ✅ Operational", st)
  else if command = "/ignore" then
    let st1 := match args.head? with
      | some a => deleteChannel st a
      | none => st
    ("🔇 Channel " ++ args.headD "undefined" ++ " removed from watch list.", st1)
  else if command = "/help" then
    ("📖 Commands: /status, /ignore <id>, /help", st)
  else ("❓ Unknown command.", st)

/-- `Orchestrator.handleCallback`: looks up the item; for a known kind it
makes one LLM call and resolves to `"callback_processed"` (the success path);
for an unknown kind, `"unknown_callback"`; for a missing item, null.  Returns
the result and the LLM-call count. -/
def handleCallback (st : Store) (text : String) : Option String × Nat :=
  let parts := text.splitOn ":"
  let kind := (parts.drop 1).headD ""
  let id := (parts.drop 2).headD ""
  match getItem st id with
  | none => (none, 0)
  | some _ =>
    if kind = "chk" ∨ kind = "syn" ∨ kind = "div" then (some "callback_processed", 1)
    else (some "unknown_callback", 0)

/-- The freshly inserted `content_items` row of the dedupe-insert step (only
the listed columns are set; the rest keep their NULL/0 defaults). -/
def newItemRow (id : String) (body : IngestBody) (text h : String) (now : Int) : Row :=
  { id := id, source_id := mkSourceId body.chatId body.messageId,
    source_name := titleOr body.title, raw_text := text, content_hash := some h,
    processed_json := none, is_signal := 0, last_analyzed_at := none,
    created_at := now }

/-- `Orchestrator.processIngest` on a media-free body, in source order:
output-loop guard; scrub; empty guard; forced analysis (text longer than 50);
slash commands; callbacks; fingerprint; analysis-reuse; update-by-id; dedupe;
insert. -/
def processIngest (env : MirrorEnv) (llm : String → List Sig) (st : Store)
    (now : Int) (freshId : String) (sigIds : List String) (body : IngestBody)
    (opts : IngestOptions) : IngestResult :=
  if outputLoopGuard body.title then ⟨none, st, [], 0⟩ else
  let id := opts.id.getD freshId
  let text := scrubSensitiveContent body.text
  if text = "" then ⟨some "no_content", st, [], 0⟩ else
  let forcedPass :=
    if opts.forceAnalysis && decide (50 < text.length) then
      let analysis := llm text
      let r := processForcedSigs env now id analysis sigIds st []
      (sqlSetSignal r.1 id, r.2.1, 1)
    else (st, ([] : List MirrorSend), 0)
  let st1 := forcedPass.1
  let sends1 := forcedPass.2.1
  let calls1 := forcedPass.2.2
  if jsStartsWith text "/" then
    let cr := handleSlashCommand st1 text
    ⟨some cr.1, cr.2, sends1, calls1⟩
  else if jsStartsWith text "CALLBACK:" then
    let cb := handleCallback st1 text
    ⟨cb.1, st1, sends1, calls1 + cb.2⟩
  else
    let contentHash := generateContentHash text
    match getRecentAnalysisByHash st1 now contentHash, opts.forceAnalysis with
    | some sig, false =>
      let signalId := sigIds.headD "uuid-exhausted"
      let st2 := saveContentItem st1 (cachedAnalysisRow signalId id sig now)
      let sends2 :=
        if ingestMirrorGate env sig.relevance_score then
          sends1 ++ [⟨mirrorSignalTarget env sig.relevance_score, "CACHED ALPHA",
                      sig.relevance_score⟩]
        else sends1
      ⟨some id, st2, sends2, calls1⟩
    | _, _ =>
      let existing := st1.content_items.filter
        (fun r => r.content_hash == some contentHash)
      match opts.id with
      | some oid =>
        ⟨some oid, sqlUpdateItemText st1 oid text contentHash (titleOr body.title),
         sends1, calls1⟩
      | none =>
        match existing with
        | r :: _ => ⟨some r.id, st1, sends1, calls1⟩
        | [] => ⟨some id, insertOrReplace st1 (newItemRow id body text contentHash now),
                 sends1, calls1⟩

/-! ## Analyzer write-back and signal promotion
(src/src/ContentDO.ts, first version, `analyzeSourceBatch` lines 205-223)

After a successful LLM response, `analyzeSourceBatch` first writes the debug
blob into `processed_json` for every item of the batch, then, for every
analysis entry with `relevance_score > 40`, runs
`UPDATE content_items SET is_signal = 1 WHERE id = ?` for every id the LLM
listed in `source_ids` — whether or not that id belongs to the batch.  The
JSON blob is modelled by an opaque `Sig`; the invariant below only inspects
nullness. -/

/-- `UPDATE content_items SET processed_json = ? WHERE id = ?` over a batch. -/
def setProcessedJsonBatch (st : Store) (ids : List String) (blob : Sig) : Store :=
  { st with content_items :=
      st.content_items.map (fun r =>
        if r.id ∈ ids then { r with processed_json := some blob } else r) }

/-- The promotion loop: `is_signal = 1` for every listed id. -/
def promoteSignals (st : Store) (ids : List String) : Store :=
  { st with content_items :=
      st.content_items.map (fun r =>
        if r.id ∈ ids then { r with is_signal := 1 } else r) }

/-- One successful `analyzeSourceBatch` pass: debug write-back for the batch,
then promotion of all `source_ids` of every entry scoring above 40. -/
def analyzeWriteBack (st : Store) (batchIds : List String) (blob : Sig)
    (analysis : List Sig) : Store :=
  let st1 := setProcessedJsonBatch st batchIds blob
  analysis.foldl
    (fun acc intel =>
      if intel.relevance_score > 40 then promoteSignals acc intel.source_ids
      else acc)
    st1

/-- The data-model invariant `is_signal = 1 → processed_json ≠ null`. -/
def signalImpliesProcessed (st : Store) : Prop :=
  ∀ r ∈ st.content_items, r.is_signal = 1 → r.processed_json.isSome = true

instance (st : Store) : Decidable (signalImpliesProcessed st) := by
  unfold signalImpliesProcessed; infer_instance

/-! ## The counter-based `FactStore`
(src/src/collectors/WebhookCollector.ts, second half, lines 56-110)

This variant keeps in-memory `counters = { items, signals, channels }` with
`initialized = false` until first use.  `ensureInitialized` materializes the
`items` and `signals` counters from the table — and nothing else: the
`channels` counter is never read from the `channels` table, and no method of
this class ever increments it. -/

/-- A `content_items` row of the counter-variant schema (the columns its
`saveContentItem` writes). -/
structure CRow where
  id : String
  source_id : Option String
  source_name : Option String
  raw_text : String
  processed_json : Option String
  is_signal : Int
  created_at : Int
  content_hash : Option String
  deriving Repr, DecidableEq

/-- The in-memory counters. -/
structure Counters where
  items : Nat
  signals : Nat
  channels : Nat
  deriving Repr, DecidableEq

/-- The counter-variant `FactStore`: tables plus cached counters. -/
structure CounterStore where
  content_items : List CRow
  channels : List String
  counters : Counters
  initialized : Bool
  deriving Repr, DecidableEq

/-- `SELECT COUNT(*) FROM content_items WHERE is_signal = 1`. -/
def signalCount (rows : List CRow) : Nat :=
  rows.countP (fun r => r.is_signal == 1)

/-- `ensureInitialized`: on first use, materialize `items` and `signals` from
the table.  The `channels` counter is left untouched. -/
def ensureInitialized (s : CounterStore) : CounterStore :=
  if s.initialized then s
  else
    { s with
      counters :=
        { items := s.content_items.length,
          signals := signalCount s.content_items,
          channels := s.counters.channels },
      initialized := true }

/-- The counter-variant `saveContentItem`: look up the existing row by id,
`INSERT OR REPLACE`, then adjust the counters — `items` and possibly
`signals` for a new id; `signals` only for a 0-to-1 transition on an existing
id.  (The argument row carries the source's `|| null` / `|| 0` /
`|| Date.now()` defaulting already applied by the caller.) -/
def csSaveContentItem (s : CounterStore) (item : CRow) : CounterStore :=
  let s := ensureInitialized s
  let existing := s.content_items.find? (fun r => r.id == item.id)
  let items1 := s.content_items.filter (fun r => !(r.id == item.id)) ++ [item]
  let counters1 :=
    match existing with
    | none =>
      { s.counters with
        items := s.counters.items + 1,
        signals :=
          if item.is_signal == 1 then s.counters.signals + 1 else s.counters.signals }
    | some ex =>
      if ex.is_signal == 0 && item.is_signal == 1 then
        { s.counters with signals := s.counters.signals + 1 }
      else s.counters
  { s with content_items := items1, counters := counters1 }

/-- `getStats`: `ensureInitialized`, then return a copy of the counters
(together with the store, whose `initialized` flag may have flipped). -/
def csGetStats (s : CounterStore) : Counters × CounterStore :=
  let s1 := ensureInitialized s
  (s1.counters, s1)

/-- What a fresh `SELECT COUNT(*)` reports for the three tables. -/
def freshCounts (s : CounterStore) : Counters :=
  { items := s.content_items.length,
    signals := signalCount s.content_items,
    channels := s.channels.length }

/-- The cold-start state of the class: zero counters, not initialized. -/
def csColdStart (rows : List CRow) (chans : List String) : CounterStore :=
  { content_items := rows, channels := chans,
    counters := { items := 0, signals := 0, channels := 0 },
    initialized := false }

/-! ## `/sql` route of `ContentDO.fetch` (src/src/ContentDO.ts, first version) -/

/-- The parsed JSON body shape read by the `/sql` and `/knowledge/mark-synced`
routes: `{ sql, params }` resp. `{ ids }`. -/
structure DORequestBody where
  sql : String
  params : List String
  ids : List String
  deriving Repr, DecidableEq

/-- The action the first `ContentDO.fetch` dispatches a request to. -/
inductive DOAction where
  | health
  | stats
  | ingest
  | process
  | rawSql (sql : String) (params : List String)
  | knowledgeSync
  | knowledgeMarkSynced (ids : List String)
  | websocket
  | notFound
  deriving Repr, DecidableEq

/-- The routing chain of `ContentDO.fetch` (first version, in source order).
The `/sql` branch hands `body.sql` and `body.params` verbatim to
`this.ctx.storage.sql.exec(body.sql, ...(body.params || []))` and returns the
resulting rows as JSON. -/
def contentDORoute (pathname method : String) (body : DORequestBody) : DOAction :=
  if pathname = "/health" then .health
  else if pathname = "/stats" ∧ method = "GET" then .stats
  else if pathname = "/ingest" ∧ method = "POST" then .ingest
  else if pathname = "/process" ∧ method = "POST" then .process
  else if pathname = "/sql" ∧ method = "POST" then .rawSql body.sql body.params
  else if pathname = "/knowledge/sync" ∧ method = "GET" then .knowledgeSync
  else if pathname = "/knowledge/mark-synced" ∧ method = "POST" then
    .knowledgeMarkSynced body.ids
  else if pathname = "/ws" then .websocket
  else .notFound

/-- The `/sql` handler body: executes the caller's SQL string against the
store and returns the rows, for an arbitrary executor `exec`. -/
def handleRawSql {Row : Type} (exec : String → List String → List Row)
    (body : DORequestBody) : List Row :=
  exec body.sql body.params

/-! ## Concrete fixtures used by counterexamples and witnesses -/

/-- A store row that is not yet analyzed (`processed_json` NULL). -/
def pendingRow : Row :=
  { id := "item-a", source_id := "src-1", source_name := "Feed", raw_text := "t1",
    content_hash := some "t1", processed_json := none, is_signal := 0,
    last_analyzed_at := none, created_at := 0 }

/-- A one-row store holding only `pendingRow`. -/
def pendingStore : Store := { content_items := [pendingRow], channels := [] }

/-- A cached analysis entry (the parsed `processed_json`). -/
def cachedSig : Sig :=
  { summary := "Rate hike 25bp", relevance_score := 85, source_ids := [] }

/-- A store row with a fresh successful analysis: `content_hash` set,
`processed_json` non-null, `last_analyzed_at` recent. -/
def analyzedRow : Row :=
  { id := "item1", source_id := "orig-src", source_name := "News",
    raw_text := "central bank hikes rates",
    content_hash := some "central bank hikes rates",
    processed_json := some cachedSig, is_signal := 1,
    last_analyzed_at := some 900, created_at := 100 }

/-- The store as it stands after the first ingest of
`"central bank hikes rates"` and its successful analysis. -/
def analyzedStore : Store := { content_items := [analyzedRow], channels := [] }

/-- A second ingest of the very same text. -/
def repeatBody : IngestBody :=
  { chatId := "c1", messageId := "m2", title := "News",
    text := "central bank hikes rates" }

/-- The same item but with no recent analysis (`processed_json` NULL), as
after a plain first ingest. -/
def unanalyzedRow : Row :=
  { id := "item1", source_id := "orig-src", source_name := "News",
    raw_text := "central bank hikes rates",
    content_hash := some "central bank hikes rates",
    processed_json := none, is_signal := 0,
    last_analyzed_at := none, created_at := 100 }

/-- A store holding only `unanalyzedRow`. -/
def unanalyzedStore : Store := { content_items := [unanalyzedRow], channels := [] }

/-- An environment with only the primary channel configured. -/
def envNoBeta : MirrorEnv := { alphaChannelId := some "-100111", betaChannelId := none }

/-- An LLM oracle that never finds signals (no call site in the modelled
scenarios reaches it). -/
def llmNone : String → List Sig := fun _ => []

/-- An analysis entry scoring above the promotion threshold and listing the
pending row as its source. -/
def promotingSig : Sig :=
  { summary := "sig", relevance_score := 60, source_ids := ["item-a"] }

/-- The opaque debug blob written back into `processed_json`. -/
def debugBlob : Sig :=
  { summary := "batch_processed", relevance_score := 0, source_ids := [] }

/-! # Theorems -/

/-! ## C5 — heartbeat backoff -/

/-- Helper: the idle iterate in closed form. -/
theorem idleInterval_closed (k : Nat) :
    idleInterval k = min (2 ^ k * BASE_HEARTBEAT_MS) MAX_HEARTBEAT_MS := by
  induction k with
  | zero => simp [idleInterval, BASE_HEARTBEAT_MS, MAX_HEARTBEAT_MS]
  | succ j ih =>
    have hB : (0 : Nat) < BASE_HEARTBEAT_MS := by norm_num [BASE_HEARTBEAT_MS]
    have hM : (0 : Nat) < MAX_HEARTBEAT_MS := by norm_num [MAX_HEARTBEAT_MS]
    have hx : 0 < 2 ^ j * BASE_HEARTBEAT_MS :=
      Nat.mul_pos (Nat.pos_pow_of_pos j (by norm_num)) hB
    have hpos : idleInterval j ≠ 0 := by rw [ih]; omega
    have step : idleInterval (j + 1) = min (idleInterval j * 2) MAX_HEARTBEAT_MS := by
      show nextHeartbeatInterval false (some (idleInterval j)) = _
      simp [nextHeartbeatInterval, readInterval, hpos]
    rw [step, ih, pow_succ]
    have hcomm : 2 ^ j * 2 * BASE_HEARTBEAT_MS = 2 ^ j * BASE_HEARTBEAT_MS * 2 := by
      ring
    rw [hcomm]
    omega

/-- C5: on every heartbeat tick the next stored interval is the base
(5 minutes) if the tick was active, and `min(previous × 2, MAX)` (60-minute
cap) otherwise; hence from the base, an uninterrupted idle period produces
the intervals `BASE, 2·BASE, 4·BASE, …` capped at `MAX`, and the interval
never exceeds `MAX`. -/
theorem claim5_heartbeat_backoff :
    (∀ stored, nextHeartbeatInterval true stored = BASE_HEARTBEAT_MS) ∧
    (∀ stored, nextHeartbeatInterval false stored =
      min (readInterval stored * 2) MAX_HEARTBEAT_MS) ∧
    (∀ k, idleInterval k = min (2 ^ k * BASE_HEARTBEAT_MS) MAX_HEARTBEAT_MS) ∧
    (∀ active stored, nextHeartbeatInterval active stored ≤ MAX_HEARTBEAT_MS) := by
  refine ⟨fun stored => rfl, fun stored => rfl, idleInterval_closed, ?_⟩
  intro active stored
  cases active with
  | true =>
    show BASE_HEARTBEAT_MS ≤ MAX_HEARTBEAT_MS
    norm_num [BASE_HEARTBEAT_MS, MAX_HEARTBEAT_MS]
  | false => exact Nat.min_le_right _ _

/-! ## C6 — ingest preempts the backoff -/

/-- C6 counterexample: with a backed-off interval of 10 minutes stored, an
accepted ingest reschedules the alarm `300000` ms (5 minutes) ahead — not
within the claimed 5 seconds. -/
theorem claim6_counterexample :
    handleIngestReset (some (10 * 60 * 1000)) 0 (some "d41d8cd9") =
      (some 300000, some 300000) ∧ ¬ ((300000 : Int) ≤ 5000) := by
  decide

/-- C6 (amended): for every accepted ingest (result non-null and neither
`no_content` nor `callback_processed`), when the stored backoff interval
exceeds the base, the interval is reset to the base (5 minutes) and the alarm
is rescheduled to `now + BASE` (5 minutes, not 5 seconds); when the stored
interval is already at or below the base, nothing is written.  The legacy
`handleIngest` (first version) schedules its alarm at `now + 5000` ms but
stores no backoff interval. -/
theorem claim6_reset_amended (stored : Option Nat) (now : Int)
    (result : Option String) (haccept : ingestTriggersReset result = true) :
    handleIngestReset stored now result =
      (if BASE_HEARTBEAT_MS < readInterval stored
       then (some BASE_HEARTBEAT_MS, some (now + (BASE_HEARTBEAT_MS : Int)))
       else (stored, none)) ∧
    handleIngestV1AlarmTime now = now + 5000 := by
  refine ⟨?_, rfl⟩
  rw [handleIngestReset, if_pos haccept, resetHeartbeat]

/-- C6 witness: a concrete accepted ingest against a 10-minute interval. -/
theorem claim6_reset_witness :
    handleIngestReset (some 600000) 7 (some "c0ffee") =
      (some BASE_HEARTBEAT_MS, some ((7 : Int) + (BASE_HEARTBEAT_MS : Int))) := by
  have h := claim6_reset_amended (some 600000) 7 (some "c0ffee") (by decide)
  exact h.1.trans (by decide)

/-! ## C3 — retry cap -/

/-- Helper: the item after `n` consecutive failing analyzer passes. -/
theorem failStep_iterate (err : String) (n : Nat) :
    (failStep err)^[n] freshItem =
      { processed_json := none, retry_count := min n MAX_RETRIES, is_signal := 0,
        last_error := if n = 0 then none else some err } := by
  induction n with
  | zero => simp [freshItem]
  | succ k ih =>
    rw [Function.iterate_succ_apply', ih]
    by_cases h : k < MAX_RETRIES
    · have h1 : min k MAX_RETRIES = k := Nat.min_eq_left (Nat.le_of_lt h)
      have h2 : min (k + 1) MAX_RETRIES = k + 1 := Nat.min_eq_left h
      simp [failStep, isPending, bumpRetry, h1, h2, h]
    · have h1 : min k MAX_RETRIES = MAX_RETRIES := Nat.min_eq_right (Nat.le_of_not_lt h)
      have h2 : min (k + 1) MAX_RETRIES = MAX_RETRIES := Nat.min_eq_right (by omega)
      have hk : k ≠ 0 := by
        intro hk0; rw [hk0] at h; exact h (by norm_num [MAX_RETRIES])
      simp [failStep, isPending, bumpRetry, h1, h2, hk]

/-- C3 (amended): `retry_count` never exceeds `MAX_RETRIES = 5`; once the cap
is reached the item no longer satisfies the pending-batch filter
`processed_json IS NULL AND retry_count < 5` and is never re-analyzed — but
the failure path leaves `is_signal` at 0 (not −1); the only write of −1 is
`Orchestrator.reprocess` on an unparseable `source_id`. -/
theorem claim3_retry_cap_amended (err : String) (n : Nat) :
    ((failStep err)^[n] freshItem).retry_count = min n MAX_RETRIES ∧
    (MAX_RETRIES ≤ n → isPending ((failStep err)^[n] freshItem) = false) ∧
    ((failStep err)^[n] freshItem).is_signal = 0 ∧
    (∀ it : RetryItem, (markFailedUnparseable it).is_signal = -1) := by
  rw [failStep_iterate]
  refine ⟨rfl, ?_, rfl, fun it => rfl⟩
  intro hcap
  have hmin : min n MAX_RETRIES = MAX_RETRIES := Nat.min_eq_right hcap
  simp [isPending, hmin, MAX_RETRIES]
  exact hcap

/-- C3 witness: after six failing passes the count is capped at 5 and the
item is no longer pending. -/
theorem claim3_retry_cap_witness :
    ((failStep "Server error: 429")^[6] freshItem).retry_count = 5 ∧
    isPending ((failStep "Server error: 429")^[6] freshItem) = false := by
  obtain ⟨h1, h2, _, _⟩ := claim3_retry_cap_amended "Server error: 429" 6
  exact ⟨h1.trans (by decide), h2 (by decide)⟩

/-- C3 counterexample: after the fifth consecutive failure the item has
`retry_count = 5` but `is_signal` is still 0, not −1 as the claim states. -/
theorem claim3_counterexample :
    ((failStep "Server error: 429")^[5] freshItem).retry_count = 5 ∧
    ((failStep "Server error: 429")^[5] freshItem).is_signal ≠ -1 := by
  decide

/-! ## C4 — tiered mirroring -/

/-- C4 (amended): on the ingest-side paths (PDF, forced analysis, cached
reuse) the routing is exactly as claimed: score ≥ 80 goes to the primary
channel, 60 ≤ score < 80 goes to the secondary channel if configured and is
otherwise dropped (the gate fails), and score < 60 is never mirrored.  On the
digest path the gate is `score ≥ 75 || (score ≥ 60 && secondary)`, so with no
secondary channel configured, scores in `[75, 80)` are sent to the *primary*
channel rather than dropped. -/
theorem claim4_mirror_routing_amended (env : MirrorEnv) (score : Int) :
    (ingestMirrorGate env score = true ↔
      (80 ≤ score ∨ (60 ≤ score ∧ env.betaChannelId.isSome = true))) ∧
    (80 ≤ score → mirrorSignalTarget env score = alphaResolved env) ∧
    (∀ beta, env.betaChannelId = some beta → score < 80 →
      mirrorSignalTarget env score = beta) ∧
    (digestMirrorGate env score = true ↔
      (75 ≤ score ∨ (60 ≤ score ∧ env.betaChannelId.isSome = true))) ∧
    (env.betaChannelId = none → 75 ≤ score → score < 80 →
      digestMirrorGate env score = true ∧
        mirrorSignalTarget env score = alphaResolved env) := by
  refine ⟨?_, ?_, ?_, ?_, ?_⟩
  · simp [ingestMirrorGate]
  · intro h
    rw [mirrorSignalTarget, alphaResolved]
    cases env.betaChannelId with
    | none => rfl
    | some beta => simp [not_lt.mpr h]
  · intro beta hbeta hlt
    rw [mirrorSignalTarget, hbeta]
    simp [hlt]
  · simp [digestMirrorGate]
  · intro hnone h75 h80
    constructor
    · simp [digestMirrorGate]
      omega
    · rw [mirrorSignalTarget, alphaResolved, hnone]

/-- C4 witness: a concrete environment with both channels configured, score
72: the gate passes and the send goes to the secondary channel. -/
theorem claim4_mirror_routing_witness :
    ingestMirrorGate ⟨some "-100111", some "-100222"⟩ 72 = true ∧
    mirrorSignalTarget ⟨some "-100111", some "-100222"⟩ 72 = "-100222" := by
  have h := claim4_mirror_routing_amended ⟨some "-100111", some "-100222"⟩ 72
  exact ⟨h.1.mpr (Or.inr ⟨by decide, rfl⟩), h.2.2.1 "-100222" rfl (by decide)⟩

/-- C4 counterexample: on the digest path, a score of 79 with no secondary
channel configured passes the `≥ 75` gate and is sent to the primary channel
— the claim says any score below 80 without a secondary channel is dropped on
every mirroring path. -/
theorem claim4_counterexample :
    digestMirrorGate ⟨some "-100123", none⟩ 79 = true ∧
    mirrorSignalTarget ⟨some "-100123", none⟩ 79 = "-100123" := by
  decide

/-! ## C10 — the raw `/sql` route -/

/-- C10: `POST /sql` with a caller-chosen SQL string is accepted by the
Durable Object's router and dispatched to the raw-SQL action, which executes
exactly the caller's string (and parameters) against the store and returns
the resulting rows — bypassing the ingest pipeline entirely. -/
theorem claim10_sql_route :
    ∀ (sql : String) (params ids : List String) (R : Type)
      (exec : String → List String → List R),
      contentDORoute "/sql" "POST" ⟨sql, params, ids⟩ = DOAction.rawSql sql params ∧
      handleRawSql exec ⟨sql, params, ids⟩ = exec sql params := by
  intro sql params ids R exec
  exact ⟨by simp [contentDORoute], rfl⟩

/-! ## C7 — `is_signal = 1 → processed_json ≠ null` -/

/-- Helper: the debug write-back makes the invariant hold and marks every
batch row as analyzed. -/
theorem setProcessedJsonBatch_inv (st : Store) (ids : List String) (blob : Sig)
    (hinv : signalImpliesProcessed st) :
    signalImpliesProcessed (setProcessedJsonBatch st ids blob) ∧
    (∀ r ∈ (setProcessedJsonBatch st ids blob).content_items,
      r.id ∈ ids → r.processed_json.isSome = true) := by
  constructor
  · intro r hr hsig
    simp only [setProcessedJsonBatch, List.mem_map] at hr
    obtain ⟨r0, hr0, rfl⟩ := hr
    by_cases hc : r0.id ∈ ids
    · simp [hc]
    · simp only [hc, if_false] at hsig ⊢
      exact hinv r0 hr0 hsig
  · intro r hr hid
    simp only [setProcessedJsonBatch, List.mem_map] at hr
    obtain ⟨r0, hr0, rfl⟩ := hr
    by_cases hc : r0.id ∈ ids
    · simp [hc]
    · simp only [hc, if_false] at hid

/-- Helper: promoting ids that all have `processed_json` set preserves the
invariant. -/
theorem promoteSignals_inv (st : Store) (sids S : List String)
    (hinv : signalImpliesProcessed st)
    (hproc : ∀ r ∈ st.content_items, r.id ∈ S → r.processed_json.isSome = true)
    (hsub : ∀ x ∈ sids, x ∈ S) :
    signalImpliesProcessed (promoteSignals st sids) ∧
    (∀ r ∈ (promoteSignals st sids).content_items,
      r.id ∈ S → r.processed_json.isSome = true) := by
  constructor
  · intro r hr hsig
    simp only [promoteSignals, List.mem_map] at hr
    obtain ⟨r0, hr0, rfl⟩ := hr
    by_cases hc : r0.id ∈ sids
    · simp only [hc, if_true]
      exact hproc r0 hr0 (hsub _ hc)
    · simp only [hc, if_false] at hsig ⊢
      exact hinv r0 hr0 hsig
  · intro r hr hid
    simp only [promoteSignals, List.mem_map] at hr
    obtain ⟨r0, hr0, rfl⟩ := hr
    by_cases hc : r0.id ∈ sids
    · simp only [hc, if_true] at hid ⊢
      exact hproc r0 hr0 hid
    · simp only [hc, if_false] at hid ⊢
      exact hproc r0 hr0 hid

/-- Helper: the promotion fold preserves the invariant when every promoted id
lies in the written-back batch. -/
theorem foldl_promote_inv (batchIds : List String) (analysis : List Sig) :
    ∀ st : Store,
      signalImpliesProcessed st →
      (∀ r ∈ st.content_items, r.id ∈ batchIds → r.processed_json.isSome = true) →
      (∀ intel ∈ analysis, intel.relevance_score > 40 →
        ∀ sid ∈ intel.source_ids, sid ∈ batchIds) →
      signalImpliesProcessed
        (analysis.foldl
          (fun acc intel =>
            if intel.relevance_score > 40 then promoteSignals acc intel.source_ids
            else acc)
          st) := by
  induction analysis with
  | nil => intro st h1 _ _; simpa using h1
  | cons intel rest ih =>
    intro st h1 h2 h3
    rw [List.foldl_cons]
    by_cases hsc : intel.relevance_score > 40
    · rw [if_pos hsc]
      have hsub : ∀ x ∈ intel.source_ids, x ∈ batchIds :=
        h3 intel (List.mem_cons_self _ _) hsc
      obtain ⟨p1, p2⟩ := promoteSignals_inv st intel.source_ids batchIds h1 h2 hsub
      exact ih _ p1 p2 (fun i hi => h3 i (List.mem_cons_of_mem _ hi))
    · rw [if_neg hsc]
      exact ih st h1 h2 (fun i hi => h3 i (List.mem_cons_of_mem _ hi))

/-- C7 (amended): the invariant `is_signal = 1 → processed_json ≠ null` is
preserved by a successful analyzer pass as long as every id the LLM lists in
`source_ids` of a promoted entry belongs to the written-back batch — the
batch rows receive their `processed_json` before promotion.  (Without that
restriction the promotion `UPDATE ... SET is_signal = 1`, and likewise the
forced-analysis mark of `processIngest`, can break the invariant:
`claim7_counterexample`.) -/
theorem claim7_invariant_amended (st : Store) (batchIds : List String)
    (blob : Sig) (analysis : List Sig)
    (hinv : signalImpliesProcessed st)
    (hsub : ∀ intel ∈ analysis, intel.relevance_score > 40 →
      ∀ sid ∈ intel.source_ids, sid ∈ batchIds) :
    signalImpliesProcessed (analyzeWriteBack st batchIds blob analysis) := by
  obtain ⟨q1, q2⟩ := setProcessedJsonBatch_inv st batchIds blob hinv
  exact foldl_promote_inv batchIds analysis _ q1 q2 hsub

/-- C7 witness: a concrete batch whose promoted `source_ids` stay inside the
batch keeps the invariant. -/
theorem claim7_invariant_witness :
    signalImpliesProcessed
      (analyzeWriteBack pendingStore ["item-a"] debugBlob [promotingSig]) :=
  claim7_invariant_amended pendingStore ["item-a"] debugBlob [promotingSig]
    (by decide) (by decide)

/-- C7 counterexample: the forced-analysis mark
(`UPDATE content_items SET is_signal = 1 WHERE id = ?`, src/unnamed/part_004
line 260) promotes a row whose `processed_json` is still NULL, so the
invariant does not hold after every operation as the claim states. -/
theorem claim7_counterexample :
    signalImpliesProcessed pendingStore ∧
    ¬ signalImpliesProcessed (sqlSetSignal pendingStore "item-a") := by
  constructor
  · decide
  · decide

/-! ## C8 — cached counters -/

/-- Helper: with ids unique, a found row splits the list (up to permutation)
into that row and the rows surviving the delete of its key. -/
theorem perm_cons_filter_of_find (key : String) :
    ∀ l : List CRow, (l.map (fun r => r.id)).Nodup →
      ∀ ex, l.find? (fun r => r.id == key) = some ex →
        l.Perm (ex :: l.filter (fun r => !(r.id == key))) := by
  intro l
  induction l with
  | nil => intro _ ex h; simp at h
  | cons a tl ih =>
    intro hnd ex hfind
    have hnotin : a.id ∉ tl.map (fun r => r.id) := by
      simp only [List.map_cons, List.nodup_cons] at hnd
      exact hnd.1
    have hndtl : (tl.map (fun r => r.id)).Nodup := by
      simp only [List.map_cons, List.nodup_cons] at hnd
      exact hnd.2
    rw [List.find?_cons] at hfind
    by_cases ha : (a.id == key) = true
    · simp only [ha] at hfind
      have hex : a = ex := by injection hfind
      subst hex
      have hkey : a.id = key := by simpa using ha
      have htl : tl.filter (fun r => !(r.id == key)) = tl := by
        rw [List.filter_eq_self]
        intro r hr
        have hne : (r.id == key) = false := by
          cases hx : (r.id == key) with
          | false => rfl
          | true =>
            exact absurd
              (hkey ▸ (by simpa using hx) ▸ List.mem_map_of_mem (fun r => r.id) hr)
              hnotin
        simp [hne]
      have hstep : (a :: tl).filter (fun r => !(r.id == key)) =
          tl.filter (fun r => !(r.id == key)) := by
        simp [List.filter_cons, ha]
      rw [hstep, htl]
    · have ha0 : (a.id == key) = false := by
        cases hx : (a.id == key) with
        | false => rfl
        | true => exact absurd hx ha
      simp only [ha0] at hfind
      have hperm := ih hndtl ex hfind
      have hstep : (a :: tl).filter (fun r => !(r.id == key)) =
          a :: tl.filter (fun r => !(r.id == key)) := by
        simp [List.filter_cons, ha0]
      rw [hstep]
      exact (hperm.cons a).trans (List.Perm.swap ex a _)

/-- Helper: a missing key leaves the delete-filter a no-op. -/
theorem filter_eq_self_of_find_none (key : String) (l : List CRow)
    (hfind : l.find? (fun r => r.id == key) = none) :
    l.filter (fun r => !(r.id == key)) = l := by
  rw [List.filter_eq_self]
  intro r hr
  have h := List.find?_eq_none.mp hfind r hr
  cases hx : (r.id == key) with
  | false => rfl
  | true => exact absurd hx h

/-- The counter-consistency invariant for `items` and `signals` (the claim's
`SELECT COUNT(*)` correspondence), conditional on initialization. -/
def csConsistent (s : CounterStore) : Prop :=
  s.initialized = true →
    s.counters.items = s.content_items.length ∧
    s.counters.signals = signalCount s.content_items

/-- Helper: `ensureInitialized` recomputes `items`/`signals` (but not
`channels`) and touches no table. -/
theorem ensureInitialized_spec (s : CounterStore) (hcons : csConsistent s) :
    (ensureInitialized s).initialized = true ∧
    (ensureInitialized s).counters.items = s.content_items.length ∧
    (ensureInitialized s).counters.signals = signalCount s.content_items ∧
    (ensureInitialized s).content_items = s.content_items ∧
    (ensureInitialized s).channels = s.channels ∧
    (ensureInitialized s).counters.channels = s.counters.channels := by
  by_cases hi : s.initialized = true
  · have h := hcons hi
    simp [ensureInitialized, hi, h.1, h.2]
  · simp only [Bool.not_eq_true] at hi
    simp [ensureInitialized, hi]

/-- C8 (amended): `Stats().items` always matches a fresh `COUNT(*)`, and
`Stats().signals` matches as long as no save replaces an existing signal row
(`is_signal = 1`) with a non-signal and `is_signal` stays in `{0, 1}`; the
`channels` counter, however, is *never* materialized or incremented — it
stays at its constructor value regardless of the `channels` table
(`claim8_counterexample`). -/
theorem claim8_counters_amended (s : CounterStore) (item : CRow)
    (hcons : csConsistent s)
    (hnodup : (s.content_items.map (fun r => r.id)).Nodup)
    (hitem : item.is_signal = 0 ∨ item.is_signal = 1)
    (hnodemote : ∀ ex ∈ s.content_items, ex.id = item.id →
      ex.is_signal = 1 → item.is_signal = 1)
    (hbool : ∀ r ∈ s.content_items, r.is_signal = 0 ∨ r.is_signal = 1) :
    csConsistent (csSaveContentItem s item) ∧
    ((csSaveContentItem s item).content_items.map (fun r => r.id)).Nodup ∧
    (∀ r ∈ (csSaveContentItem s item).content_items,
      r.is_signal = 0 ∨ r.is_signal = 1) ∧
    (csSaveContentItem s item).counters.channels = s.counters.channels ∧
    (csGetStats s).1.channels = s.counters.channels := by
  obtain ⟨e1, e2, e3, e4, e5, e6⟩ := ensureInitialized_spec s hcons
  have g5 : (csGetStats s).1.channels = s.counters.channels := by
    simp only [csGetStats]
    exact e6
  have hnodup1 : ((ensureInitialized s).content_items.map (fun r => r.id)).Nodup := by
    rw [e4]; exact hnodup
  rcases hfind : (ensureInitialized s).content_items.find? (fun r => r.id == item.id)
    with _ | ex
  · -- new id: the filter is a no-op, counters gain the item
    have hfilter := filter_eq_self_of_find_none item.id
      (ensureInitialized s).content_items hfind
    have hnotin : ∀ r ∈ (ensureInitialized s).content_items, r.id ≠ item.id := by
      intro r hr
      have := List.find?_eq_none.mp hfind r hr
      simpa using this
    have hsave : csSaveContentItem s item =
        { content_items := (ensureInitialized s).content_items ++ [item],
          channels := (ensureInitialized s).channels,
          counters :=
            { items := (ensureInitialized s).counters.items + 1,
              signals :=
                if (item.is_signal == 1) = true
                then (ensureInitialized s).counters.signals + 1
                else (ensureInitialized s).counters.signals,
              channels := (ensureInitialized s).counters.channels },
          initialized := (ensureInitialized s).initialized } := by
      simp [csSaveContentItem, hfind, hfilter]
    refine ⟨?_, ?_, ?_, ?_, g5⟩
    · intro _
      rw [hsave]
      constructor
      · simp only [List.length_append, List.length_cons, List.length_nil, e2, e4]
      · by_cases hsig : (item.is_signal == 1) = true <;>
          simp [hsig, signalCount, List.countP_append, List.countP_cons,
            List.countP_nil, e3, e4]
    · rw [hsave]
      simp only [List.map_append, List.map_cons, List.map_nil]
      rw [List.nodup_append]
      refine ⟨hnodup1, List.nodup_singleton _, ?_⟩
      intro a ha hb
      simp only [List.mem_singleton] at hb
      obtain ⟨r, hr, rfl⟩ := List.mem_map.mp ha
      exact hnotin r hr hb
    · intro r hr
      rw [hsave] at hr
      rcases List.mem_append.mp hr with hl | hs
      · exact hbool r (e4 ▸ hl)
      · rw [List.mem_singleton.mp hs]
        exact hitem
    · rw [hsave]
      exact e6
  · -- existing id: replacement, counters adjusted only on a 0-to-1 transition
    have hperm := perm_cons_filter_of_find item.id
      (ensureInitialized s).content_items hnodup1 ex hfind
    have hexmem : ex ∈ (ensureInitialized s).content_items :=
      List.mem_of_find?_eq_some hfind
    have hexmem0 : ex ∈ s.content_items := e4 ▸ hexmem
    have hexid : ex.id = item.id := by
      have := List.find?_some hfind
      simpa using this
    have hlen : (ensureInitialized s).content_items.length =
        ((ensureInitialized s).content_items.filter
          (fun r => !(r.id == item.id))).length + 1 := by
      rw [hperm.length_eq]; simp
    have hcount :
        (ensureInitialized s).content_items.countP (fun r => r.is_signal == 1) =
          ((ensureInitialized s).content_items.filter
            (fun r => !(r.id == item.id))).countP (fun r => r.is_signal == 1) +
            (if (ex.is_signal == 1) = true then 1 else 0) := by
      rw [hperm.countP_eq, List.countP_cons]
    have hsave : csSaveContentItem s item =
        { content_items := (ensureInitialized s).content_items.filter
            (fun r => !(r.id == item.id)) ++ [item],
          channels := (ensureInitialized s).channels,
          counters :=
            { items := (ensureInitialized s).counters.items,
              signals :=
                if (ex.is_signal == 0 && item.is_signal == 1) = true
                then (ensureInitialized s).counters.signals + 1
                else (ensureInitialized s).counters.signals,
              channels := (ensureInitialized s).counters.channels },
          initialized := (ensureInitialized s).initialized } := by
      by_cases hd : (ex.is_signal == 0 && item.is_signal == 1) = true <;>
        simp [csSaveContentItem, hfind, hd]
    refine ⟨?_, ?_, ?_, ?_, g5⟩
    · intro _
      rw [hsave]
      constructor
      · simp only [List.length_append, List.length_cons, List.length_nil, e2, e4]
        rw [e4] at hlen
        omega
      · rw [e4] at hcount
        have hnd := hnodemote ex hexmem0 hexid
        rcases hbool ex hexmem0 with hex | hex
        · rcases hitem with hit | hit
          · simp [hex, hit, signalCount, List.countP_append, List.countP_cons,
              List.countP_nil, e3, e4] at hcount ⊢
            omega
          · simp [hex, hit, signalCount, List.countP_append, List.countP_cons,
              List.countP_nil, e3, e4] at hcount ⊢
            omega
        · rcases hitem with hit | hit
          · have := hnd hex
            omega
          · simp [hex, hit, signalCount, List.countP_append, List.countP_cons,
              List.countP_nil, e3, e4] at hcount ⊢
            omega
    · rw [hsave]
      simp only [List.map_append, List.map_cons, List.map_nil]
      rw [List.nodup_append]
      refine ⟨?_, List.nodup_singleton _, ?_⟩
      · have hsub : ((ensureInitialized s).content_items.filter
            (fun r => !(r.id == item.id))).Sublist
            (ensureInitialized s).content_items := List.filter_sublist _
        exact (hsub.map (fun r => r.id)).nodup hnodup1
      · intro a ha hb
        simp only [List.mem_singleton] at hb
        obtain ⟨r, hr, rfl⟩ := List.mem_map.mp ha
        have := (List.mem_filter.mp hr).2
        rw [hb] at this
        simp at this
    · intro r hr
      rw [hsave] at hr
      rcases List.mem_append.mp hr with hl | hs
      · exact hbool r (e4 ▸ (List.mem_filter.mp hl).1)
      · rw [List.mem_singleton.mp hs]
        exact hitem
    · rw [hsave]
      by_cases hd : (ex.is_signal == 0 && item.is_signal == 1) = true <;>
        simp only [hd, if_true, if_false] <;> exact e6

/-- C8 witness: a concrete initialized-from-cold store where a fresh save of
a signal row keeps both counters consistent. -/
theorem claim8_counters_witness :
    csConsistent
      (csSaveContentItem (csColdStart [] [])
        { id := "w1", source_id := none, source_name := none, raw_text := "t",
          processed_json := some "pj", is_signal := 1, created_at := 5,
          content_hash := none }) := by
  have h := claim8_counters_amended (csColdStart [] [])
    { id := "w1", source_id := none, source_name := none, raw_text := "t",
      processed_json := some "pj", is_signal := 1, created_at := 5,
      content_hash := none }
    (by intro h; simp [csColdStart] at h)
    (by decide) (Or.inr rfl) (by decide) (by decide)
  exact h.1

/-! ## C1 — deduplication on a second ingest -/

/-- C1 (amended): for a second ingest of identical (scrubbed, non-empty,
non-command, non-callback) text *without* a recent cached analysis for its
hash, `processIngest` returns the id of the already-stored ContentItem and
inserts no new row — the store is unchanged.  On the analysis-reuse path,
however, a new `content_items` row (the cached-analysis Signal) *is*
inserted and a fresh id is returned (`claim1_counterexample`). -/
theorem claim1_dedupe_amended (env : MirrorEnv) (llm : String → List Sig)
    (st : Store) (now : Int) (freshId : String) (sigIds : List String)
    (body : IngestBody)
    (hguard : outputLoopGuard body.title = false)
    (htext : ¬ scrubSensitiveContent body.text = "")
    (hcmd : jsStartsWith (scrubSensitiveContent body.text) "/" = false)
    (hcb : jsStartsWith (scrubSensitiveContent body.text) "CALLBACK:" = false)
    (hnorecent : getRecentAnalysisByHash st now
      (generateContentHash (scrubSensitiveContent body.text)) = none)
    (r : Row) (rest : List Row)
    (hexist : st.content_items.filter
      (fun x => x.content_hash ==
        some (generateContentHash (scrubSensitiveContent body.text))) = r :: rest) :
    processIngest env llm st now freshId sigIds body defaultOptions =
      ⟨some r.id, st, [], 0⟩ := by
  simp [processIngest, defaultOptions, hguard, htext, hcmd, hcb, hnorecent, hexist]

/-- C1 witness: re-ingesting the stored text against a store with no recent
analysis returns the stored id and leaves the store unchanged. -/
theorem claim1_dedupe_witness :
    processIngest envNoBeta llmNone unanalyzedStore 1000 "fresh-2" ["sig-2"]
      repeatBody defaultOptions =
      ⟨some "item1", unanalyzedStore, [], 0⟩ :=
  claim1_dedupe_amended envNoBeta llmNone unanalyzedStore 1000 "fresh-2" ["sig-2"]
    repeatBody (by decide) (by decide) (by decide) (by decide) (by decide)
    unanalyzedRow [] (by decide)

/-- C1 counterexample: when the store holds a recent analysis for the hash,
the second ingest of identical text does *not* return the stored id
(`item1`) — it returns the fresh id — and the `content_items` row count
grows from 1 to 2 (the cached-analysis Signal row is inserted). -/
theorem claim1_counterexample :
    (processIngest envNoBeta llmNone analyzedStore 1000 "fresh-1" ["sig-1"]
      repeatBody defaultOptions).result ≠ some "item1" ∧
    (processIngest envNoBeta llmNone analyzedStore 1000 "fresh-1" ["sig-1"]
      repeatBody defaultOptions).store.content_items.length = 2 ∧
    analyzedStore.content_items.length = 1 := by
  refine ⟨by decide, by decide, by decide⟩

/-! ## C2 — analysis reuse -/

/-- C2 (amended): for an ingest whose hash has a stored `processed_json`
younger than 24 h (and `forceAnalysis` not set), `processIngest` makes no
LLM call and saves a new Signal row with the cached analysis — but that
row's `source_id` is the *fresh* id generated for the current ingest, not
the id of the original, already-stored ContentItem
(`claim2_counterexample`); the mirror decision is recomputed from the
cached `relevance_score`. -/
theorem claim2_reuse_amended (env : MirrorEnv) (llm : String → List Sig)
    (st : Store) (now : Int) (freshId sid : String) (restIds : List String)
    (body : IngestBody) (sig : Sig)
    (hguard : outputLoopGuard body.title = false)
    (htext : ¬ scrubSensitiveContent body.text = "")
    (hcmd : jsStartsWith (scrubSensitiveContent body.text) "/" = false)
    (hcb : jsStartsWith (scrubSensitiveContent body.text) "CALLBACK:" = false)
    (hrecent : getRecentAnalysisByHash st now
      (generateContentHash (scrubSensitiveContent body.text)) = some sig) :
    processIngest env llm st now freshId (sid :: restIds) body defaultOptions =
      { result := some freshId,
        store := saveContentItem st (cachedAnalysisRow sid freshId sig now),
        sends :=
          if ingestMirrorGate env sig.relevance_score then
            [⟨mirrorSignalTarget env sig.relevance_score, "CACHED ALPHA",
              sig.relevance_score⟩]
          else [],
        llmCalls := 0 } := by
  simp [processIngest, defaultOptions, hguard, htext, hcmd, hcb, hrecent]

/-- C2 witness: a concrete reuse ingest — zero LLM calls, one new Signal row
with the cached analysis, one mirror send recomputed from the cached score
(85 ≥ 80, so the primary channel). -/
theorem claim2_reuse_witness :
    processIngest envNoBeta llmNone analyzedStore 1000 "fresh-1" ["sig-1"]
      repeatBody defaultOptions =
      { result := some "fresh-1",
        store := saveContentItem analyzedStore
          (cachedAnalysisRow "sig-1" "fresh-1" cachedSig 1000),
        sends := [⟨"-100111", "CACHED ALPHA", 85⟩],
        llmCalls := 0 } := by
  have h := claim2_reuse_amended envNoBeta llmNone analyzedStore 1000 "fresh-1"
    "sig-1" [] repeatBody cachedSig (by decide) (by decide) (by decide)
    (by decide) (by decide)
  exact h.trans (by decide)

/-- C2 counterexample: the Signal row created on the reuse path references
`"fresh-1"` — the uuid generated for the current ingest — as its
`source_id`, not the id `"item1"` of the original, already-stored
ContentItem. -/
theorem claim2_counterexample :
    ((processIngest envNoBeta llmNone analyzedStore 1000 "fresh-1" ["sig-1"]
      repeatBody defaultOptions).store.content_items.map
        (fun r => (r.id, r.source_id))) =
      [("item1", "orig-src"), ("sig-1", "fresh-1")] ∧
    ("fresh-1" : String) ≠ "item1" := by
  refine ⟨by decide, by decide⟩

/-- C8 counterexample: on cold start with one registered channel, `getStats`
reports 0 channels while a fresh `SELECT COUNT(*)` over `channels` reports 1
— the `channels` counter is never materialized. -/
theorem claim8_counterexample :
    (csGetStats (csColdStart [] ["chan-1"])).1.channels = 0 ∧
    (freshCounts (csColdStart [] ["chan-1"])).channels = 1 ∧
    (0 : Nat) ≠ 1 := by
  decide

/-! ## C9 — scrub idempotence

Skeleton of the argument.  Both replacement tokens start with `[` and end
with `]`, characters that belong to no character class of either regex, so
no match of either matcher can overlap a token.  A character preserved by a
pass carries no match at its position (the scan checked); hence the output
of a pass contains no match of its matcher anywhere, and a second pass is a
no-op.  The card pass also stays match-free through the email pass. -/

/-- `replaceAllAux` on the empty list. -/
theorem replaceAllAux_nil (m : List Char → Option Nat) (token : List Char)
    (fuel : Nat) : replaceAllAux m token fuel [] = [] := by
  cases fuel <;> rfl

/-- `replaceAllAux` step on a preserved character. -/
theorem replaceAllAux_cons_none (m : List Char → Option Nat) (token : List Char)
    (fuel : Nat) (c : Char) (rest : List Char) (h : m (c :: rest) = none) :
    replaceAllAux m token (fuel + 1) (c :: rest) =
      c :: replaceAllAux m token fuel rest := by
  simp [replaceAllAux, h]

/-- `replaceAllAux` step on a match. -/
theorem replaceAllAux_cons_some (m : List Char → Option Nat) (token : List Char)
    (fuel : Nat) (c : Char) (rest : List Char) (n : Nat)
    (h : m (c :: rest) = some n) :
    replaceAllAux m token (fuel + 1) (c :: rest) =
      token ++ replaceAllAux m token fuel ((c :: rest).drop n) := by
  simp [replaceAllAux, h]

/-- A match-free string passes through the replace unchanged. -/
theorem replaceAll_eq_self (m : List Char → Option Nat) (token : List Char) :
    ∀ (fuel : Nat) (s : List Char), noMatch m s →
      replaceAllAux m token fuel s = s := by
  intro fuel
  induction fuel with
  | zero => intro s _; cases s <;> rfl
  | succ f ih =>
    intro s h
    cases s with
    | nil => rfl
    | cons c rest =>
      have h0 : m (c :: rest) = none := by simpa using h 0
      rw [replaceAllAux_cons_none m token f c rest h0]
      have hrest : noMatch m rest := fun p => by simpa using h (p + 1)
      rw [ih rest hrest]

/-- Build `noMatch` for a cons cell. -/
theorem noMatch_cons (m : List Char → Option Nat) (c : Char) (Y : List Char)
    (h0 : m (c :: Y) = none) (hY : noMatch m Y) : noMatch m (c :: Y) := by
  intro p
  cases p with
  | zero => simpa using h0
  | succ q => simpa using hY q

/-- `noMatch` survives dropping a prefix. -/
theorem noMatch_drop (m : List Char → Option Nat) (s : List Char) (k : Nat)
    (h : noMatch m s) : noMatch m (s.drop k) := by
  intro p
  rw [List.drop_drop]
  exact h (k + p)

/-- A match-free tail stays match-free behind a token on whose suffixes the
matcher always fails. -/
theorem noMatch_token_append (m : List Char → Option Nat) (token X : List Char)
    (htokfail : ∀ p z, p < token.length → m (token.drop p ++ z) = none)
    (hX : noMatch m X) : noMatch m (token ++ X) := by
  intro p
  rw [List.drop_append_eq_append_drop]
  by_cases hp : p < token.length
  · have : p - token.length = 0 := by omega
    rw [this, List.drop_zero]
    exact htokfail p X hp
  · have hd : token.drop p = [] := List.drop_eq_nil_of_le (by omega)
    rw [hd, List.nil_append]
    exact hX (p - token.length)

/-- A token-free prefix of the replace output coincides with the input: only
token insertions (which start with `[`) separate the preserved characters. -/
theorem take_eq_of_no_lbrack (m : List Char → Option Nat) (token : List Char)
    (htok : ∃ tl, token = '[' :: tl) :
    ∀ (fuel : Nat) (s : List Char) (k : Nat),
      (∀ ch ∈ (replaceAllAux m token fuel s).take k, ch ≠ '[') →
      (replaceAllAux m token fuel s).take k = s.take k := by
  intro fuel
  induction fuel with
  | zero => intro s k _; cases s <;> rfl
  | succ f ih =>
    intro s k h
    cases s with
    | nil => rfl
    | cons c rest =>
      rcases hmc : m (c :: rest) with _ | n
      · rw [replaceAllAux_cons_none m token f c rest hmc] at h ⊢
        cases k with
        | zero => rfl
        | succ q =>
          rw [List.take_succ_cons] at h ⊢
          rw [ih rest q (fun ch hch => h ch (List.mem_cons_of_mem _ hch))]
          rw [List.take_succ_cons]
      · obtain ⟨tl, rfl⟩ := htok
        rw [replaceAllAux_cons_some m _ f c rest n hmc] at h
        cases k with
        | zero => rfl
        | succ q =>
          exfalso
          exact h '[' (by simp [List.take_succ_cons]) rfl

/-- Key step: if `m₂` finds no match at a preserved character of the input,
it finds none at that character in the output either. -/
theorem head_no_match (m₁ m₂ : List Char → Option Nat) (token₁ : List Char)
    (htok : ∃ tl, token₁ = '[' :: tl)
    (hpos₂ : ∀ s n, m₂ s = some n → 1 ≤ n)
    (hfriendly₂ : ∀ s n, m₂ s = some n → ∀ ch ∈ s.take n, ch ≠ '[')
    (htransfer₂ : ∀ s₁ s₂ n, m₂ s₁ = some n → s₁.take n = s₂.take n →
      (m₂ s₂).isSome)
    (c : Char) (rest : List Char) (fuel : Nat)
    (hnone : m₂ (c :: rest) = none) :
    m₂ (c :: replaceAllAux m₁ token₁ fuel rest) = none := by
  rcases hmc : m₂ (c :: replaceAllAux m₁ token₁ fuel rest) with _ | n
  · rfl
  · exfalso
    have hfr := hfriendly₂ _ _ hmc
    obtain ⟨n0, rfl⟩ : ∃ n0, n = n0 + 1 := by
      have := hpos₂ _ _ hmc
      exact ⟨n - 1, by omega⟩
    rw [List.take_succ_cons] at hfr
    have hfr0 : ∀ ch ∈ (replaceAllAux m₁ token₁ fuel rest).take n0, ch ≠ '[' :=
      fun ch hch => hfr ch (List.mem_cons_of_mem _ hch)
    have htake := take_eq_of_no_lbrack m₁ token₁ htok fuel rest n0 hfr0
    have heq : (c :: replaceAllAux m₁ token₁ fuel rest).take (n0 + 1) =
        (c :: rest).take (n0 + 1) := by
      rw [List.take_succ_cons, List.take_succ_cons, htake]
    have := htransfer₂ _ _ _ hmc heq
    rw [hnone] at this
    simp at this

/-- Main lemma: the output of a pass carries no match of its own matcher. -/
theorem noMatch_output (m : List Char → Option Nat) (token : List Char)
    (hpos : ∀ s n, m s = some n → 1 ≤ n)
    (hnil : m [] = none)
    (htok : ∃ tl, token = '[' :: tl)
    (htokfail : ∀ p z, p < token.length → m (token.drop p ++ z) = none)
    (hfriendly : ∀ s n, m s = some n → ∀ ch ∈ s.take n, ch ≠ '[')
    (htransfer : ∀ s₁ s₂ n, m s₁ = some n → s₁.take n = s₂.take n →
      (m s₂).isSome) :
    ∀ (fuel : Nat) (s : List Char), s.length ≤ fuel →
      noMatch m (replaceAllAux m token fuel s) := by
  intro fuel
  induction fuel with
  | zero =>
    intro s hs
    have : s = [] := List.length_eq_zero.mp (Nat.le_zero.mp hs)
    subst this
    intro p
    rw [replaceAllAux_nil, List.drop_nil]
    exact hnil
  | succ f ih =>
    intro s hs
    cases s with
    | nil =>
      intro p
      rw [replaceAllAux_nil, List.drop_nil]
      exact hnil
    | cons c rest =>
      rcases hmc : m (c :: rest) with _ | n
      · rw [replaceAllAux_cons_none m token f c rest hmc]
        have hrest := ih rest (by simpa using Nat.le_of_succ_le_succ hs)
        exact noMatch_cons m c _
          (head_no_match m m token htok hpos hfriendly htransfer c rest f hmc)
          hrest
      · rw [replaceAllAux_cons_some m token f c rest n hmc]
        apply noMatch_token_append m token _ htokfail
        apply ih
        have hn := hpos _ _ hmc
        rw [List.length_drop]
        simp only [List.length_cons] at hs ⊢
        omega

/-- Cross lemma: a string free of `m₂`-matches stays free of them through an
`m₁`-pass whose token defeats `m₂` as well. -/
theorem noMatch_preserved (m₁ m₂ : List Char → Option Nat) (token₁ : List Char)
    (htok : ∃ tl, token₁ = '[' :: tl)
    (hpos₂ : ∀ s n, m₂ s = some n → 1 ≤ n)
    (htokfail : ∀ p z, p < token₁.length → m₂ (token₁.drop p ++ z) = none)
    (hfriendly₂ : ∀ s n, m₂ s = some n → ∀ ch ∈ s.take n, ch ≠ '[')
    (htransfer₂ : ∀ s₁ s₂ n, m₂ s₁ = some n → s₁.take n = s₂.take n →
      (m₂ s₂).isSome) :
    ∀ (fuel : Nat) (s : List Char), noMatch m₂ s →
      noMatch m₂ (replaceAllAux m₁ token₁ fuel s) := by
  intro fuel
  induction fuel with
  | zero =>
    intro s h
    cases s with
    | nil => simpa [replaceAllAux_nil] using h
    | cons c rest => exact h
  | succ f ih =>
    intro s h
    cases s with
    | nil => simpa [replaceAllAux_nil] using h
    | cons c rest =>
      have hrest : noMatch m₂ rest := fun p => by simpa using h (p + 1)
      have h0 : m₂ (c :: rest) = none := by simpa using h 0
      rcases hmc : m₁ (c :: rest) with _ | n
      · rw [replaceAllAux_cons_none m₁ token₁ f c rest hmc]
        exact noMatch_cons m₂ c _
          (head_no_match m₁ m₂ token₁ htok hpos₂ hfriendly₂ htransfer₂ c rest f h0)
          (ih rest hrest)
      · rw [replaceAllAux_cons_some m₁ token₁ f c rest n hmc]
        apply noMatch_token_append m₂ token₁ _ htokfail
        exact ih _ (noMatch_drop m₂ (c :: rest) n h)

/-- `matchesPat` only inspects the first `ps.length` characters. -/
theorem matchesPat_congr (ps : List (Char → Bool)) :
    ∀ s₁ s₂ : List Char, s₁.take ps.length = s₂.take ps.length →
      matchesPat ps s₁ = matchesPat ps s₂ := by
  induction ps with
  | nil => intro s₁ s₂ _; rfl
  | cons p ps ih =>
    intro s₁ s₂ h
    cases s₁ with
    | nil =>
      cases s₂ with
      | nil => rfl
      | cons b bs => simp at h
    | cons a as =>
      cases s₂ with
      | nil => simp at h
      | cons b bs =>
        simp only [List.length_cons, List.take_succ_cons, List.cons.injEq] at h
        rw [show matchesPat (p :: ps) (a :: as) = (p a && matchesPat ps as) from rfl,
            show matchesPat (p :: ps) (b :: bs) = (p b && matchesPat ps bs) from rfl,
            h.1, ih as bs h.2]

/-- Characters inspected by a successful `matchesPat` satisfy any property
implied by every pattern predicate. -/
theorem matchesPat_take_all (ps : List (Char → Bool)) :
    ∀ s : List Char, matchesPat ps s = true →
      ∀ F : Char → Prop, (∀ p ∈ ps, ∀ c, p c = true → F c) →
      ∀ ch ∈ s.take ps.length, F ch := by
  induction ps with
  | nil => intro s _ F _ ch hch; simp at hch
  | cons p ps ih =>
    intro s hm F hF ch hch
    cases s with
    | nil => simp [matchesPat] at hm
    | cons a as =>
      rw [show matchesPat (p :: ps) (a :: as) = (p a && matchesPat ps as) from rfl,
          Bool.and_eq_true] at hm
      simp only [List.length_cons, List.take_succ_cons] at hch
      rcases List.mem_cons.mp hch with rfl | hch2
      · exact hF p (List.mem_cons_self _ _) ch hm.1
      · exact ih as hm.2 F (fun q hq => hF q (List.mem_cons_of_mem _ hq)) ch hch2

/-- `cardMatchLen` inverted. -/
theorem cardMatchLen_eq_some (s : List Char) (n : Nat)
    (h : cardMatchLen s = some n) :
    matchesPat cardPat s = true ∧ n = 19 := by
  unfold cardMatchLen at h
  split at h
  · next hm =>
    injection h with h1
    exact ⟨hm, h1.symm⟩
  · next => simp at h

/-- Every card match consumes 19 characters. -/
theorem cardMatchLen_pos (s : List Char) (n : Nat) (h : cardMatchLen s = some n) :
    1 ≤ n := by
  obtain ⟨_, rfl⟩ := cardMatchLen_eq_some s n h
  omega

/-- The empty string has no card match. -/
theorem cardMatchLen_nil : cardMatchLen [] = none := rfl

/-- A card match must start with a digit. -/
theorem cardMatchLen_not_digit (c : Char) (z : List Char)
    (hc : c.isDigit = false) : cardMatchLen (c :: z) = none := by
  have hfalse : matchesPat cardPat (c :: z) = false := by
    rw [show matchesPat cardPat (c :: z) =
        (Char.isDigit c && matchesPat (cardPat.drop 1) z) from rfl, hc,
      Bool.false_and]
  simp [cardMatchLen, hfalse]

/-- Every predicate of the card pattern is the digit or the dash test. -/
theorem cardPat_cases : ∀ p ∈ cardPat, p = Char.isDigit ∨ p = isDashChar := by
  intro p hp
  simp only [cardPat, List.mem_cons, List.not_mem_nil, or_false] at hp
  tauto

/-- Characters of a card match are never `[`. -/
theorem card_friendly (s : List Char) (n : Nat) (h : cardMatchLen s = some n) :
    ∀ ch ∈ s.take n, ch ≠ '[' := by
  obtain ⟨hm, rfl⟩ := cardMatchLen_eq_some s n h
  rw [show (19 : Nat) = cardPat.length from rfl]
  refine matchesPat_take_all cardPat s hm _ ?_
  intro p hp c hc hceq
  subst hceq
  rcases cardPat_cases p hp with rfl | rfl
  · exact absurd hc (by decide)
  · exact absurd hc (by decide)

/-- Card-match existence only depends on the matched prefix. -/
theorem card_transfer (s₁ s₂ : List Char) (n : Nat)
    (h : cardMatchLen s₁ = some n) (heq : s₁.take n = s₂.take n) :
    (cardMatchLen s₂).isSome := by
  obtain ⟨hm, rfl⟩ := cardMatchLen_eq_some s₁ n h
  rw [show (19 : Nat) = cardPat.length from rfl] at heq
  have hcongr := matchesPat_congr cardPat s₁ s₂ heq
  unfold cardMatchLen
  rw [← hcongr, hm]
  simp

/-- The card matcher fails on every suffix of a digit-free token (both
replacement tokens qualify), whatever follows. -/
theorem card_token_fail (token : List Char)
    (hall : ∀ c ∈ token, c.isDigit = false) (p : Nat) (z : List Char)
    (hp : p < token.length) :
    cardMatchLen (token.drop p ++ z) = none := by
  rcases hd : token.drop p with _ | ⟨c, w⟩
  · exfalso
    have hlen := congrArg List.length hd
    rw [List.length_drop] at hlen
    simp at hlen
    omega
  · have hcmem : c ∈ token := by
      refine List.mem_of_mem_drop (n := p) ?_
      rw [hd]
      exact List.mem_cons_self _ _
    exact cardMatchLen_not_digit c (w ++ z) (hall c hcmem)

/-- No character of `[CREDIT_CARD]` is a digit. -/
theorem cardToken_no_digit : ∀ c ∈ CARD_TOKEN, c.isDigit = false := by decide

/-- No character of `[EMAIL]` is a digit. -/
theorem emailToken_no_digit : ∀ c ∈ EMAIL_TOKEN, c.isDigit = false := by decide

/-- What a successful `findDot` guarantees. -/
theorem findDot_spec (rest2 : List Char) :
    ∀ k j t, findDot rest2 k = some (j, t) →
      1 ≤ j ∧ j ≤ k ∧ (rest2.drop j).headD ' ' = '.' ∧
      t = ((rest2.drop (j + 1)).takeWhile Char.isAlpha).length ∧ 2 ≤ t := by
  intro k
  induction k with
  | zero => intro j t h; simp [findDot] at h
  | succ q ih =>
    intro j t h
    have hunfold : findDot rest2 (q + 1) =
        if (rest2.drop (q + 1)).headD ' ' = '.' then
          (if 2 ≤ ((rest2.drop (q + 2)).takeWhile Char.isAlpha).length then
            some (q + 1, ((rest2.drop (q + 2)).takeWhile Char.isAlpha).length)
          else findDot rest2 q)
        else findDot rest2 q := rfl
    by_cases hdot : (rest2.drop (q + 1)).headD ' ' = '.'
    · by_cases ht : 2 ≤ ((rest2.drop (q + 2)).takeWhile Char.isAlpha).length
      · rw [hunfold, if_pos hdot, if_pos ht] at h
        injection h with h1
        injection h1 with hj htv
        subst hj
        subst htv
        exact ⟨by omega, by omega, hdot, rfl, ht⟩
      · rw [hunfold, if_pos hdot, if_neg ht] at h
        have := ih j t h
        exact ⟨this.1, by omega, this.2.2⟩
    · rw [hunfold, if_neg hdot] at h
      have := ih j t h
      exact ⟨this.1, by omega, this.2.2⟩

/-- `findDot` succeeds whenever some candidate dot position works. -/
theorem findDot_complete (rest2 : List Char) :
    ∀ k j, 1 ≤ j → j ≤ k → (rest2.drop j).headD ' ' = '.' →
      2 ≤ ((rest2.drop (j + 1)).takeWhile Char.isAlpha).length →
      findDot rest2 k ≠ none := by
  intro k
  induction k with
  | zero => intro j h1 h2 _ _; omega
  | succ q ih =>
    intro j h1 h2 hdot ht
    have hunfold : findDot rest2 (q + 1) =
        if (rest2.drop (q + 1)).headD ' ' = '.' then
          (if 2 ≤ ((rest2.drop (q + 2)).takeWhile Char.isAlpha).length then
            some (q + 1, ((rest2.drop (q + 2)).takeWhile Char.isAlpha).length)
          else findDot rest2 q)
        else findDot rest2 q := rfl
    by_cases hdk : (rest2.drop (q + 1)).headD ' ' = '.'
    · by_cases htk : 2 ≤ ((rest2.drop (q + 2)).takeWhile Char.isAlpha).length
      · rw [hunfold, if_pos hdk, if_pos htk]
        simp
      · have hj : j ≤ q := by
          rcases Nat.lt_or_ge j (q + 1) with hlt | hge
          · omega
          · exfalso
            have hjq : j = q + 1 := by omega
            rw [hjq] at ht
            exact htk ht
        rw [hunfold, if_pos hdk, if_neg htk]
        exact ih j h1 hj hdot ht
    · have hj : j ≤ q := by
        rcases Nat.lt_or_ge j (q + 1) with hlt | hge
        · omega
        · exfalso
          have hjq : j = q + 1 := by omega
          rw [hjq] at hdot
          exact hdk hdot
      rw [hunfold, if_neg hdk]
      exact ih j h1 hj hdot ht

/-- What a successful email match guarantees, in terms of the greedy runs. -/
theorem emailMatchLen_some_spec (s : List Char) (n : Nat)
    (h : emailMatchLen s = some n) :
    1 ≤ (s.takeWhile isLocalChar).length ∧
    (s.drop (s.takeWhile isLocalChar).length).headD ' ' = '@' ∧
    ∃ j t,
      findDot (s.drop ((s.takeWhile isLocalChar).length + 1))
        ((s.drop ((s.takeWhile isLocalChar).length + 1)).takeWhile
          isDomainChar).length = some (j, t) ∧
      n = (s.takeWhile isLocalChar).length + 1 + j + 1 + t := by
  have h2 : (if (s.takeWhile isLocalChar).length = 0 then none
      else if (s.drop (s.takeWhile isLocalChar).length).headD ' ' = '@' then
        match findDot (s.drop ((s.takeWhile isLocalChar).length + 1))
          ((s.drop ((s.takeWhile isLocalChar).length + 1)).takeWhile
            isDomainChar).length with
        | some (j, t) => some ((s.takeWhile isLocalChar).length + 1 + j + 1 + t)
        | none => none
      else none) = some n := h
  clear h
  split at h2
  · next => simp at h2
  · next hl =>
    split at h2
    · next hat =>
      split at h2
      · next j t hfd =>
        injection h2 with h1
        exact ⟨by omega, hat, j, t, hfd, h1.symm⟩
      · next => simp at h2
    · next => simp at h2

/-- Every email match consumes at least one character. -/
theorem emailMatchLen_pos (s : List Char) (n : Nat)
    (h : emailMatchLen s = some n) : 1 ≤ n := by
  obtain ⟨h1, _, j, t, _, rfl⟩ := emailMatchLen_some_spec s n h
  omega

/-- The empty string has no email match. -/
theorem emailMatchLen_nil : emailMatchLen [] = none := rfl

/-- `takeWhile` walks through a block of satisfying characters. -/
theorem takeWhile_append_of_all {α : Type} (p : α → Bool) (xs ys : List α)
    (hxs : ∀ c ∈ xs, p c = true) :
    (xs ++ ys).takeWhile p = xs ++ ys.takeWhile p := by
  induction xs with
  | nil => simp
  | cons a as ih =>
    have ha : p a = true := hxs a (List.mem_cons_self _ _)
    rw [List.cons_append, List.takeWhile_cons, if_pos ha, List.cons_append,
      ih (fun c hc => hxs c (List.mem_cons_of_mem _ hc))]

/-- A list whose `headD` differs from the default starts with that head. -/
theorem headD_eq_cons {α : Type} (xs : List α) (a d : α)
    (h : xs.headD d = a) (hne : a ≠ d) : xs = a :: xs.tail := by
  cases xs with
  | nil => exact absurd h.symm hne
  | cons b bs =>
    simp only [List.headD_cons] at h
    rw [h]
    rfl

/-- The matched prefix of an email match splits as
`local ++ @ ++ domain ++ . ++ tld`. -/
theorem email_take_decomp (s : List Char) (n : Nat)
    (h : emailMatchLen s = some n) :
    ∃ A B C : List Char,
      s.take n = A ++ '@' :: (B ++ '.' :: C) ∧
      (∀ c ∈ A, isLocalChar c = true) ∧
      (∀ c ∈ B, isDomainChar c = true) ∧
      (∀ c ∈ C, Char.isAlpha c = true) ∧
      1 ≤ A.length ∧ 1 ≤ B.length ∧ 2 ≤ C.length ∧
      n = A.length + 1 + B.length + 1 + C.length := by
  obtain ⟨hl, hat, j, t, hfd, hn⟩ := emailMatchLen_some_spec s n h
  obtain ⟨hj1, hjd, hdot, ht, ht2⟩ := findDot_spec _ _ j t hfd
  have hAtake : s.take (s.takeWhile isLocalChar).length = s.takeWhile isLocalChar :=
    (List.prefix_iff_eq_take.mp (List.takeWhile_prefix _)).symm
  have hsdropl : s.drop (s.takeWhile isLocalChar).length =
      '@' :: s.drop ((s.takeWhile isLocalChar).length + 1) := by
    have hcons := headD_eq_cons _ _ _ hat (by decide)
    rw [hcons, List.tail_drop]
  have htw : (s.drop ((s.takeWhile isLocalChar).length + 1)).takeWhile isDomainChar =
      (s.drop ((s.takeWhile isLocalChar).length + 1)).take
        ((s.drop ((s.takeWhile isLocalChar).length + 1)).takeWhile
          isDomainChar).length :=
    List.prefix_iff_eq_take.mp (List.takeWhile_prefix _)
  have hBeq : (s.drop ((s.takeWhile isLocalChar).length + 1)).take j =
      ((s.drop ((s.takeWhile isLocalChar).length + 1)).takeWhile
        isDomainChar).take j := by
    rw [htw, List.take_take, Nat.min_eq_left hjd]
  have hBlen : ((s.drop ((s.takeWhile isLocalChar).length + 1)).take j).length = j := by
    rw [List.length_take, Nat.min_eq_left]
    calc j ≤ ((s.drop ((s.takeWhile isLocalChar).length + 1)).takeWhile
          isDomainChar).length := hjd
      _ ≤ (s.drop ((s.takeWhile isLocalChar).length + 1)).length :=
          (List.takeWhile_prefix _).length_le
  have hdropj : (s.drop ((s.takeWhile isLocalChar).length + 1)).drop j =
      '.' :: (s.drop ((s.takeWhile isLocalChar).length + 1)).drop (j + 1) := by
    have hcons := headD_eq_cons _ _ _ hdot (by decide)
    rw [hcons, List.tail_drop]
  have hCtake : ((s.drop ((s.takeWhile isLocalChar).length + 1)).drop (j + 1)).take t =
      ((s.drop ((s.takeWhile isLocalChar).length + 1)).drop (j + 1)).takeWhile
        Char.isAlpha := by
    rw [ht]
    exact (List.prefix_iff_eq_take.mp (List.takeWhile_prefix _)).symm
  refine ⟨s.takeWhile isLocalChar,
    (s.drop ((s.takeWhile isLocalChar).length + 1)).take j,
    ((s.drop ((s.takeWhile isLocalChar).length + 1)).drop (j + 1)).takeWhile
      Char.isAlpha,
    ?_, ?_, ?_, ?_, hl, ?_, ?_, ?_⟩
  · rw [show n = (s.takeWhile isLocalChar).length + (1 + (j + (1 + t))) from by omega,
      List.take_add, hAtake, hsdropl,
      show (1 + (j + (1 + t))) = (j + (1 + t)) + 1 from by omega,
      List.take_succ_cons, List.take_add, hdropj,
      show 1 + t = t + 1 from by omega,
      List.take_succ_cons, hCtake]
  · exact fun c hc => List.mem_takeWhile_imp hc
  · intro c hc
    rw [hBeq] at hc
    exact List.mem_takeWhile_imp (List.mem_of_mem_take hc)
  · exact fun c hc => List.mem_takeWhile_imp hc
  · rw [hBlen]; exact hj1
  · rw [← ht]; exact ht2
  · rw [hBlen, ← ht]; omega

/-- `emailMatchLen`, zeta-expanded. -/
theorem emailMatchLen_eq (s : List Char) :
    emailMatchLen s =
      (if (s.takeWhile isLocalChar).length = 0 then none
       else if (s.drop (s.takeWhile isLocalChar).length).headD ' ' = '@' then
         match findDot (s.drop ((s.takeWhile isLocalChar).length + 1))
           ((s.drop ((s.takeWhile isLocalChar).length + 1)).takeWhile
             isDomainChar).length with
         | some (j, t) => some ((s.takeWhile isLocalChar).length + 1 + j + 1 + t)
         | none => none
       else none) := rfl

/-- An email-shaped prefix guarantees a match, whatever follows. -/
theorem emailMatchLen_isSome_append (A B C Z : List Char)
    (hA : ∀ c ∈ A, isLocalChar c = true) (hA1 : 1 ≤ A.length)
    (hB : ∀ c ∈ B, isDomainChar c = true) (hB1 : 1 ≤ B.length)
    (hC : ∀ c ∈ C, Char.isAlpha c = true) (hC2 : 2 ≤ C.length) :
    (emailMatchLen (A ++ '@' :: (B ++ '.' :: (C ++ Z)))).isSome := by
  have hlocal : (A ++ '@' :: (B ++ '.' :: (C ++ Z))).takeWhile isLocalChar = A := by
    rw [takeWhile_append_of_all _ _ _ hA, List.takeWhile_cons, if_neg (by decide),
      List.append_nil]
  have hdropA : (A ++ '@' :: (B ++ '.' :: (C ++ Z))).drop A.length =
      '@' :: (B ++ '.' :: (C ++ Z)) := List.drop_left _ _
  have hdropA1 : (A ++ '@' :: (B ++ '.' :: (C ++ Z))).drop (A.length + 1) =
      B ++ '.' :: (C ++ Z) := by
    rw [show A ++ '@' :: (B ++ '.' :: (C ++ Z)) =
      (A ++ ['@']) ++ (B ++ '.' :: (C ++ Z)) from by simp]
    exact List.drop_left' (by simp)
  have hdropB : (B ++ '.' :: (C ++ Z)).drop B.length = '.' :: (C ++ Z) :=
    List.drop_left _ _
  have hdropB1 : (B ++ '.' :: (C ++ Z)).drop (B.length + 1) = C ++ Z := by
    rw [show B ++ '.' :: (C ++ Z) = (B ++ ['.']) ++ (C ++ Z) from by simp]
    exact List.drop_left' (by simp)
  have halpha : 2 ≤
      (((B ++ '.' :: (C ++ Z)).drop (B.length + 1)).takeWhile Char.isAlpha).length := by
    rw [hdropB1, takeWhile_append_of_all _ _ _ hC, List.length_append]
    omega
  have hdom : B.length ≤ ((B ++ '.' :: (C ++ Z)).takeWhile isDomainChar).length := by
    rw [takeWhile_append_of_all _ _ _ hB, List.length_append]
    omega
  have hfd : findDot (B ++ '.' :: (C ++ Z))
      ((B ++ '.' :: (C ++ Z)).takeWhile isDomainChar).length ≠ none := by
    refine findDot_complete _ _ B.length hB1 hdom ?_ halpha
    rw [hdropB]
    rfl
  rcases hfdv : findDot (B ++ '.' :: (C ++ Z))
      ((B ++ '.' :: (C ++ Z)).takeWhile isDomainChar).length with _ | jt
  · exact absurd hfdv hfd
  · rcases jt with ⟨j, t⟩
    rw [emailMatchLen_eq, hlocal, hdropA, hdropA1, if_neg (by omega),
      if_pos (by simp), hfdv]
    simp

/-- Characters of an email match are never `[`. -/
theorem email_friendly (s : List Char) (n : Nat) (h : emailMatchLen s = some n) :
    ∀ ch ∈ s.take n, ch ≠ '[' := by
  obtain ⟨A, B, C, hdecomp, hA, hB, hC, _, _, _, _⟩ := email_take_decomp s n h
  intro ch hch hceq
  subst hceq
  rw [hdecomp] at hch
  rcases List.mem_append.mp hch with h1 | h2
  · exact absurd (hA _ h1) (by decide)
  · rcases List.mem_cons.mp h2 with h3 | h4
    · exact absurd h3 (by decide)
    · rcases List.mem_append.mp h4 with h5 | h6
      · exact absurd (hB _ h5) (by decide)
      · rcases List.mem_cons.mp h6 with h7 | h8
        · exact absurd h7 (by decide)
        · exact absurd (hC _ h8) (by decide)

/-- Email-match existence only depends on the matched prefix. -/
theorem email_transfer (s₁ s₂ : List Char) (n : Nat)
    (h : emailMatchLen s₁ = some n) (heq : s₁.take n = s₂.take n) :
    (emailMatchLen s₂).isSome := by
  obtain ⟨A, B, C, hdecomp, hA, hB, hC, hA1, hB1, hC2, hn⟩ := email_take_decomp s₁ n h
  have hs2 : s₂ = A ++ '@' :: (B ++ '.' :: (C ++ s₂.drop n)) := by
    conv_lhs => rw [← List.take_append_drop n s₂]
    rw [← heq, hdecomp]
    simp
  rw [hs2]
  exact emailMatchLen_isSome_append A B C _ hA hA1 hB hB1 hC hC2

/-- The email matcher fails when the first character is not a local one. -/
theorem email_fail_not_local (c : Char) (z : List Char)
    (hc : isLocalChar c = false) : emailMatchLen (c :: z) = none := by
  have htw : (c :: z).takeWhile isLocalChar = [] := by
    simp [List.takeWhile_cons, hc]
  rw [emailMatchLen_eq, htw]
  simp

/-- The email matcher fails on a local run cut off by `]`. -/
theorem email_fail_local_rbrack (w z : List Char)
    (hw : ∀ c ∈ w, isLocalChar c = true) :
    emailMatchLen (w ++ ']' :: z) = none := by
  have htw : (w ++ ']' :: z).takeWhile isLocalChar = w := by
    rw [takeWhile_append_of_all _ _ _ hw]
    simp [List.takeWhile_cons, show isLocalChar ']' = false from rfl]
  rw [emailMatchLen_eq, htw]
  by_cases hw0 : w.length = 0
  · rw [if_pos hw0]
  · have hne : ¬ (((w ++ ']' :: z).drop w.length).headD ' ' = '@') := by
      rw [List.drop_left]
      simp
    rw [if_neg hw0, if_neg hne]

/-- The email matcher fails on every suffix of `[EMAIL]`, whatever follows. -/
theorem email_token_fail (p : Nat) (z : List Char) (hp : p < EMAIL_TOKEN.length) :
    emailMatchLen (EMAIL_TOKEN.drop p ++ z) = none := by
  have hlen : EMAIL_TOKEN.length = 7 := rfl
  rw [hlen] at hp
  interval_cases p
  · exact email_fail_not_local '[' _ (by decide)
  · exact email_fail_local_rbrack ['E', 'M', 'A', 'I', 'L'] z (by decide)
  · exact email_fail_local_rbrack ['M', 'A', 'I', 'L'] z (by decide)
  · exact email_fail_local_rbrack ['A', 'I', 'L'] z (by decide)
  · exact email_fail_local_rbrack ['I', 'L'] z (by decide)
  · exact email_fail_local_rbrack ['L'] z (by decide)
  · exact email_fail_not_local ']' _ (by decide)

/-- The card pass leaves no card match anywhere in its output. -/
theorem noCard_cardPass (s : List Char) :
    noMatch cardMatchLen (replaceAll cardMatchLen CARD_TOKEN s) :=
  noMatch_output cardMatchLen CARD_TOKEN cardMatchLen_pos cardMatchLen_nil
    ⟨['C', 'R', 'E', 'D', 'I', 'T', '_', 'C', 'A', 'R', 'D', ']'], rfl⟩
    (card_token_fail CARD_TOKEN cardToken_no_digit) card_friendly card_transfer
    s.length s le_rfl

/-- The email pass leaves no email match anywhere in its output. -/
theorem noEmail_emailPass (u : List Char) :
    noMatch emailMatchLen (replaceAll emailMatchLen EMAIL_TOKEN u) :=
  noMatch_output emailMatchLen EMAIL_TOKEN emailMatchLen_pos emailMatchLen_nil
    ⟨['E', 'M', 'A', 'I', 'L', ']'], rfl⟩ email_token_fail email_friendly
    email_transfer u.length u le_rfl

/-- The scrub output is free of card matches (the email pass cannot create
one). -/
theorem noCard_scrub (s : List Char) : noMatch cardMatchLen (scrubChars s) :=
  noMatch_preserved emailMatchLen cardMatchLen EMAIL_TOKEN
    ⟨['E', 'M', 'A', 'I', 'L', ']'], rfl⟩ cardMatchLen_pos
    (card_token_fail EMAIL_TOKEN emailToken_no_digit) card_friendly card_transfer
    (replaceAll cardMatchLen CARD_TOKEN s).length
    (replaceAll cardMatchLen CARD_TOKEN s) (noCard_cardPass s)

/-- The scrub output is free of email matches. -/
theorem noEmail_scrub (s : List Char) : noMatch emailMatchLen (scrubChars s) :=
  noEmail_emailPass (replaceAll cardMatchLen CARD_TOKEN s)

/-- Idempotence on character lists. -/
theorem scrubChars_idem (s : List Char) : scrubChars (scrubChars s) = scrubChars s := by
  show replaceAll emailMatchLen EMAIL_TOKEN
      (replaceAll cardMatchLen CARD_TOKEN (scrubChars s)) = scrubChars s
  rw [show replaceAll cardMatchLen CARD_TOKEN (scrubChars s) = scrubChars s from
    replaceAll_eq_self _ _ _ _ (noCard_scrub s)]
  exact replaceAll_eq_self _ _ _ _ (noEmail_scrub s)

/-- C9: the scrubber is idempotent — `scrub(scrub(x)) = scrub(x)` for every
string `x`, where scrub replaces dashed 16-digit card numbers with
`[CREDIT_CARD]` and email addresses with `[EMAIL]`; the second conjunct
evaluates the scrubber on a concrete input containing both patterns. -/
theorem claim9_scrub_idempotent :
    (∀ x : String, scrubSensitiveContent (scrubSensitiveContent x) =
      scrubSensitiveContent x) ∧
    scrubSensitiveContent
        "card 1234-5678-9012-3456 mail john.doe@example.com end" =
      "card [CREDIT_CARD] mail [EMAIL] end" := by
  constructor
  · intro x
    show String.mk (scrubChars (String.mk (scrubChars x.data)).data) =
      String.mk (scrubChars x.data)
    rw [show (String.mk (scrubChars x.data)).data = scrubChars x.data from rfl,
      scrubChars_idem]
  · decide

end ContentRefinery
